import Mathlib

/-!
# Verification of the Procurer multi-period procurement planner

A shallow embedding, in Lean 4, of the core planning layer of the
Procurer repository (`src/models/*.py`, `src/solvers/*.py`,
`src/utils/validation.py`), together with theorems settling the frozen
specification claims.

Modelling conventions:
* Python `float` quantities are modelled as `ℚ` (exact arithmetic).
* Python `dict`s are modelled as association lists.  A dict comprehension
  (later duplicate keys overwrite earlier ones, insertion order kept) is
  modelled by `mkDict`; mutation `d[k] = v` is `dinsert`, `del d[k]` is
  `dremove`, and `d.get(k, default)` / `d[k]` are `dget` (which returns
  `Option`, so a raising `d[k]` access becomes an `Except` error case).
* Code that can raise (`KeyError` on a missing inventory record in the
  heuristic solver) is modelled with `Except String`.
* The two mathematical-programming solvers hand a model to an external
  engine (CBC / IPOPT).  The engine is a black box: it is modelled by an
  arbitrary variable assignment, and a returned status of `"Optimal"` is
  modelled by the hypothesis that the assignment satisfies every
  constraint the Python code adds to the model (`LinearSatisfied`), and,
  where optimality itself matters, additionally minimises the objective
  the Python code builds (`LinearOptimal`).
-/

namespace Procurer

/-! ## Association lists modelling Python dicts -/

/-- First-match association-list lookup (`dict.get` on a dict whose keys are
unique, which `mkDict`/`dinsert` maintain). -/
def dget {κ β : Type} [DecidableEq κ] : List (κ × β) → κ → Option β
  | [], _ => none
  | (k, v) :: rest, a => if a = k then some v else dget rest a

/-- Models `d[k] = v` on a Python dict: overwrite in place if the key is present,
else append at the end (insertion order). -/
def dinsert {κ β : Type} [DecidableEq κ] (k : κ) (v : β) : List (κ × β) → List (κ × β)
  | [] => [(k, v)]
  | (k', v') :: rest => if k = k' then (k, v) :: rest else (k', v') :: dinsert k v rest

/-- Models `del d[k]` on a Python dict. -/
def dremove {κ β : Type} [DecidableEq κ] (k : κ) : List (κ × β) → List (κ × β)
  | [] => []
  | (k', v') :: rest => if k = k' then rest else (k', v') :: dremove k rest

/-- A Python dict comprehension over a list of key/value pairs: insert in
order, later keys overwriting earlier ones. -/
def mkDict {κ β : Type} [DecidableEq κ] (l : List (κ × β)) : List (κ × β) :=
  l.foldl (fun d kv => dinsert kv.1 kv.2 d) []

/-! ## The data model (src/models) -/

/-- Field `Product.discounts`: optional `{'threshold': int, 'discount': float}`
(`nonlinear.py` reads it with `int(d.get('threshold', 0))` and
`float(d.get('discount', 0.0))`). -/
structure DiscountPolicy where
  threshold : Int
  discount : ℚ
deriving DecidableEq

structure Product where
  id : String
  name : String
  unit_cost_by_supplier : List (String × ℚ)
  expiration_periods : Int
  MOQ : Int
  discounts : Option DiscountPolicy
deriving DecidableEq

structure Supplier where
  id : String
  name : String
  products_offered : List String
  minimum_order_value : ℚ
  lead_times : List (String × Int)
deriving DecidableEq

structure DemandRec where
  product_id : String
  period : Int
  expected_quantity : ℚ
deriving DecidableEq

structure InventoryRec where
  product_id : String
  initial_stock : ℚ
  holding_cost : ℚ
  warehouse_capacity : ℚ
  safety_stock : ℚ
deriving DecidableEq

structure LogisticsRec where
  supplier_id : String
  product_id : String
  cost_per_unit : ℚ
  fixed_cost : ℚ
deriving DecidableEq

/-- The `data` dictionary handed to every solver. -/
structure InputData where
  products : List Product
  suppliers : List Supplier
  demand : List DemandRec
  inventory : List InventoryRec
  logistics_cost : List LogisticsRec
deriving DecidableEq

/-! ## Shared lookup tables (`_prepare_lookups` in each solver) -/

def productIds (data : InputData) : List String := data.products.map (·.id)

def supplierIds (data : InputData) : List String := data.suppliers.map (·.id)

/-- Insert an `Int` into a strictly increasing list, dropping duplicates. -/
def insertPeriod (x : Int) : List Int → List Int
  | [] => [x]
  | y :: ys => if x < y then x :: y :: ys else if x = y then y :: ys else y :: insertPeriod x ys

/-- Models `sorted(set(d.period for d in demand))`: the strictly increasing list of
distinct demand periods. -/
def sortedPeriods (demand : List DemandRec) : List Int :=
  demand.foldr (fun d acc => insertPeriod d.period acc) []

/-! ## Distinct-key dicts and sparse extraction dicts -/

/-- Association lists whose keys are pairwise distinct (every dict the
Python code builds has this shape). -/
def NodupKeys {κ β : Type} (l : List (κ × β)) : Prop := (l.map (·.1)).Nodup

/-- Sparse extraction dicts: keep `(k, val k)` only where `pos k` holds. -/
def mkKeyed {κ β : Type} (l : List κ) (val : κ → β) (pos : κ → Bool) : List (κ × β) :=
  l.filterMap (fun k => if pos k then some (k, val k) else none)

/-! ## Python `sorted` on ids and periods -/

def insSorted {α : Type} [LinearOrder α] (x : α) : List α → List α
  | [] => [x]
  | y :: ys => if x ≤ y then x :: y :: ys else y :: insSorted x ys

/-- Models `sorted(l)` (insertion sort; the claims only use the resulting order,
membership and length, never stability). -/
def msort {α : Type} [LinearOrder α] : List α → List α
  | [] => []
  | x :: xs => insSorted x (msort xs)

/-! ## Accumulating dict writes (`d[k] = d.get(k, 0) + qty`) -/

def dinsertAdd {κ : Type} [DecidableEq κ] (k : κ) (v : ℚ) (d : List (κ × ℚ)) : List (κ × ℚ) :=
  dinsert k ((dget d k).getD 0 + v) d

def accumFold {κ : Type} [DecidableEq κ] (events : List (κ × ℚ)) (d : List (κ × ℚ)) :
    List (κ × ℚ) :=
  events.foldl (fun d kv => dinsertAdd kv.1 kv.2 d) d

/-! ## Lookup dictionaries built by `_prepare_lookups` -/

def productMap (data : InputData) : List (String × Product) :=
  mkDict (data.products.map fun p => (p.id, p))

def supplierMap (data : InputData) : List (String × Supplier) :=
  mkDict (data.suppliers.map fun s => (s.id, s))

def invMap (data : InputData) : List (String × InventoryRec) :=
  mkDict (data.inventory.map fun r => (r.product_id, r))

def demandMap (data : InputData) : List ((String × Int) × ℚ) :=
  mkDict (data.demand.map fun d => ((d.product_id, d.period), d.expected_quantity))

def logisticsMap (data : InputData) : List ((String × String) × LogisticsRec) :=
  mkDict (data.logistics_cost.map fun l => ((l.supplier_id, l.product_id), l))

/-- Models `lead_time_map = {(s.id, p.id): s.lead_times.get(p.id, 0) for s in suppliers
for p in products}` (heuristic and nonlinear solvers). -/
def ltMap (data : InputData) : List ((String × String) × Int) :=
  mkDict (data.suppliers.flatMap fun s =>
    data.products.map fun p => ((s.id, p.id), (dget s.lead_times p.id).getD 0))

/-- Models `lead_time_map.get((s, i), 0)`. -/
def ltOf (data : InputData) (s i : String) : Int := (dget (ltMap data) (s, i)).getD 0

/-- Models `demand_map.get((i, t), 0)`. -/
def demandQ (data : InputData) (i : String) (t : Int) : ℚ :=
  (dget (demandMap data) (i, t)).getD 0

/-- Default records: `inventory_map[i]` and `product_map[i]` raise `KeyError`
in Python when the key is missing; the linear-solver constraint model below
totalises those lookups with a neutral record (the theorems about that model
relate the plan to the very same lookup, so the default never hides a
divergence; the heuristic model keeps the raising behaviour via `Except`). -/
def defaultInventoryRec (i : String) : InventoryRec :=
  { product_id := i, initial_stock := 0, holding_cost := 0, warehouse_capacity := 0,
    safety_stock := 0 }

def invRec (data : InputData) (i : String) : InventoryRec :=
  (dget (invMap data) i).getD (defaultInventoryRec i)

def defaultProduct (i : String) : Product :=
  { id := i, name := "", unit_cost_by_supplier := [], expiration_periods := 0, MOQ := 0,
    discounts := none }

def productRec (data : InputData) (i : String) : Product :=
  (dget (productMap data) i).getD (defaultProduct i)

/-- Supplier `s` offers product `i` (`p.id in s.products_offered`). -/
def SupplierOffers (data : InputData) (s i : String) : Prop :=
  ∃ sup ∈ data.suppliers, sup.id = s ∧ i ∈ sup.products_offered

instance (data : InputData) (s i : String) : Decidable (SupplierOffers data s i) := by
  unfold SupplierOffers
  infer_instance

/-- Models `validate_data` (src/utils/validation.py): referential consistency of the
five collections; `True` means no `ValueError` is raised. -/
def ValidData (data : InputData) : Prop :=
  (∀ d ∈ data.demand, d.product_id ∈ productIds data) ∧
  (∀ r ∈ data.inventory, r.product_id ∈ productIds data) ∧
  (∀ l ∈ data.logistics_cost, l.supplier_id ∈ supplierIds data ∧
    l.product_id ∈ productIds data)

instance (data : InputData) : Decidable (ValidData data) := by
  unfold ValidData
  infer_instance

/-! ## `BaseSolver._complete_procurement_plan` (src/solvers/base.py) -/

/-- The key sequence `for supplier in sorted(...) for product in sorted(...)
for period in sorted(...)`. -/
def orderedTriples (product_ids supplier_ids : List String) (periods : List Int) :
    List (String × String × Int) :=
  (msort supplier_ids).flatMap fun s =>
    (msort product_ids).flatMap fun p =>
      (msort periods).map fun t => (p, s, t)

/-- Models `_complete_procurement_plan`: the densified plan.  The Python code fills a
dict in the loop order above; since each `(product, supplier, period)` key is
produced once (given unique ids), the dict is the in-order list of
`(key, plan.get(key, 0.0))` pairs. -/
def completeProcurementPlan (plan : List ((String × String × Int) × ℚ))
    (product_ids supplier_ids : List String) (periods : List Int) :
    List ((String × String × Int) × ℚ) :=
  (orderedTriples product_ids supplier_ids periods).map fun k => (k, (dget plan k).getD 0)

/-- Ordering of the densified plan: supplier first, then product, then
period, strictly increasing. -/
def PlanKeyLt (k1 k2 : String × String × Int) : Prop :=
  k1.2.1 < k2.2.1 ∨ (k1.2.1 = k2.2.1 ∧ (k1.1 < k2.1 ∨ (k1.1 = k2.1 ∧ k1.2.2 < k2.2.2)))

/-! ## The exact planner (src/solvers/linear.py)

`LinearSolver` builds a PuLP MILP and hands it to CBC.  The engine is a
black box returning a status and variable values; an `Assignment` models the
returned values, `LinearSatisfied` the statement "the assignment satisfies
every constraint `_create_variables`/`_add_constraints` put in the model"
(which a status of `"Optimal"` guarantees), and `LinearOptimal` additionally
"no satisfying assignment has a smaller objective". -/

structure Assignment where
  procure : String → String → Int → ℚ
  inv : String → Int → ℚ
  y : String → String → Int → ℚ

/-- Variable domains from `_create_variables`: `p_vars` and `inv_vars` are
non-negative integers (`lowBound=0, cat=LpInteger`; integrality expressed as
denominator 1), `y_vars` binary. -/
def VarDomains (data : InputData) (a : Assignment) : Prop :=
  (∀ i ∈ productIds data, ∀ j ∈ supplierIds data, ∀ t ∈ sortedPeriods data.demand,
    0 ≤ a.procure i j t ∧ (a.procure i j t).den = 1 ∧ (a.y i j t = 0 ∨ a.y i j t = 1)) ∧
  (∀ i ∈ productIds data, ∀ t ∈ sortedPeriods data.demand,
    0 ≤ a.inv i t ∧ (a.inv i t).den = 1)

/-- Models `lpSum(p_vars[i, j, t] for j in supplier_ids)`. -/
def sumProc (data : InputData) (a : Assignment) (i : String) (t : Int) : ℚ :=
  ((supplierIds data).map fun j => a.procure i j t).sum

/-- The inventory-balance constraint for product `i` at period index `k`
(periods processed in sorted order; `t == periods[0]` iff `k = 0` since the
sorted period list has no duplicates, and `periods[periods.index(t)-1]` is
`periods[k-1]`). -/
def BalanceAt (data : InputData) (a : Assignment) (i : String) (k : ℕ) : Prop :=
  (if k = 0 then (invRec data i).initial_stock
    else a.inv i ((sortedPeriods data.demand).getD (k - 1) 0))
    + sumProc data a i ((sortedPeriods data.demand).getD k 0)
    - demandQ data i ((sortedPeriods data.demand).getD k 0)
    = a.inv i ((sortedPeriods data.demand).getD k 0)

/-- All constraints `_add_constraints` adds: inventory balance, warehouse
capacity, safety stock, shelf life (`t > periods[0] + expiration_periods`
forces zero inventory), and the MOQ/big-M pair with `bigM = 1e6`. -/
def LinConstraints (data : InputData) (a : Assignment) : Prop :=
  ∀ i ∈ productIds data,
    (∀ k ∈ List.range (sortedPeriods data.demand).length,
      BalanceAt data a i k ∧
      a.inv i ((sortedPeriods data.demand).getD k 0) ≤ (invRec data i).warehouse_capacity ∧
      (invRec data i).safety_stock ≤ a.inv i ((sortedPeriods data.demand).getD k 0) ∧
      ((sortedPeriods data.demand).headD 0 + (productRec data i).expiration_periods <
          (sortedPeriods data.demand).getD k 0 →
        a.inv i ((sortedPeriods data.demand).getD k 0) = 0)) ∧
    (∀ j ∈ supplierIds data, ∀ t ∈ sortedPeriods data.demand,
      ((productRec data i).MOQ : ℚ) * a.y i j t ≤ a.procure i j t ∧
      a.procure i j t ≤ 1000000 * a.y i j t)

def LinearSatisfied (data : InputData) (a : Assignment) : Prop :=
  VarDomains data a ∧ LinConstraints data a

instance (data : InputData) (a : Assignment) : Decidable (VarDomains data a) := by
  unfold VarDomains
  infer_instance

instance (data : InputData) (a : Assignment) (i : String) (k : ℕ) :
    Decidable (BalanceAt data a i k) := by
  unfold BalanceAt
  infer_instance

instance (data : InputData) (a : Assignment) : Decidable (LinConstraints data a) := by
  unfold LinConstraints
  infer_instance

instance (data : InputData) (a : Assignment) : Decidable (LinearSatisfied data a) := by
  unfold LinearSatisfied
  infer_instance

/-- Models `_add_objective`: procurement cost (unit cost defaulting to `1e6` for a
supplier with no price entry), logistics cost (only over pairs present in the
logistics table), and holding cost. -/
def linObjective (data : InputData) (a : Assignment) : ℚ :=
  (((productIds data).map fun i =>
    ((supplierIds data).map fun j =>
      ((sortedPeriods data.demand).map fun t =>
        a.procure i j t *
          ((dget (productRec data i).unit_cost_by_supplier j).getD 1000000)).sum).sum).sum)
  + (((productIds data).map fun i =>
      ((supplierIds data).map fun j =>
        ((sortedPeriods data.demand).map fun t =>
          match dget (logisticsMap data) (j, i) with
          | some l => a.procure i j t * l.cost_per_unit
          | none => 0).sum).sum).sum)
  + (((productIds data).map fun i =>
      ((sortedPeriods data.demand).map fun t =>
        a.inv i t * (invRec data i).holding_cost).sum).sum)

/-- An `"Optimal"` outcome: the engine returned a constraint-satisfying
assignment of minimum objective value. -/
def LinearOptimal (data : InputData) (a : Assignment) : Prop :=
  LinearSatisfied data a ∧
    ∀ a' : Assignment, LinearSatisfied data a' → linObjective data a ≤ linObjective data a'

/-- The `(i, j, t)` iteration order of `_extract_solution`. -/
def allTriples (data : InputData) : List (String × String × Int) :=
  (productIds data).flatMap fun i =>
    (supplierIds data).flatMap fun j =>
      (sortedPeriods data.demand).map fun t => (i, j, t)

def allPairs (data : InputData) : List (String × Int) :=
  (productIds data).flatMap fun i =>
    (sortedPeriods data.demand).map fun t => (i, t)

/-- Models `_extract_solution`: the sparse procurement plan (only strictly positive
values are retained). -/
def linearProcPlan (data : InputData) (a : Assignment) :
    List ((String × String × Int) × ℚ) :=
  mkKeyed (allTriples data) (fun k => a.procure k.1 k.2.1 k.2.2)
    (fun k => decide (0 < a.procure k.1 k.2.1 k.2.2))

/-- Models `_extract_solution`: the sparse inventory plan (only strictly positive
values are retained). -/
def linearInvPlan (data : InputData) (a : Assignment) : List ((String × Int) × ℚ) :=
  mkKeyed (allPairs data) (fun k => a.inv k.1 k.2) (fun k => decide (0 < a.inv k.1 k.2))

/-! ## The heuristic planner (src/solvers/heuristic.py) -/

/-- The mutable state of `HeuristicSolver.solve`'s simulation loop. -/
structure HState where
  inv : List (String × ℚ)
  pending : List (String × List (Int × ℚ))
  procurement : List ((String × String × Int) × ℚ)
  shipments : List ((String × String × Int) × ℚ)
  invPlan : List ((String × Int) × ℚ)
deriving DecidableEq

/-- Models `periods.index(t)` (total here; the solver only calls it on members). -/
def idxOfPeriod : List Int → Int → Nat
  | [], _ => 0
  | x :: xs, a => if a = x then 0 else idxOfPeriod xs a + 1

/-- Models `_project_inventory_with_lead_times`. -/
def projectInventory (data : InputData) (product_id : String) (current_period : Int)
    (current_inventory : ℚ) (pending : List (Int × ℚ)) : ℚ :=
  let periods := sortedPeriods data.demand
  let currentIdx := idxOfPeriod periods current_period
  if periods.length ≤ currentIdx + 1 then current_inventory
  else
    let next_period := periods.getD (currentIdx + 1) 0
    let next_demand := demandQ data product_id next_period
    let shipments_arriving := ((pending.filter fun e => e.1 ≤ next_period).map (·.2)).sum
    max 0 (current_inventory + shipments_arriving - next_demand)

/-- Earliest minimum-cost offer (replace only on strictly smaller cost). -/
def pickCheapest : List (String × ℚ) → Option (String × ℚ)
  | [] => none
  | o :: rest => some (rest.foldl (fun best o2 => if o2.2 < best.2 then o2 else best) o)

/-- The finite-priced offers of `_order_moq_from_cheapest`: suppliers
carrying the product, priced via `unit_cost_by_supplier.get(s.id,
float('inf'))`; a missing price is the absent `Option` case (the Python loop
skips the `inf` entries). -/
def heuristicOffers (p : Product) (suppliers : List Supplier) : List (String × ℚ) :=
  (suppliers.filter fun s => decide (p.id ∈ s.products_offered)).filterMap
    (fun s => (dget p.unit_cost_by_supplier s.id).map fun c => (s.id, c))

/-- Models `_order_moq_from_cheapest`.  Python sorts the offers by cost (stable
sort) and returns the first non-`inf` one, i.e. the earliest minimum over
the finite-priced offers — which is what `pickCheapest` computes. -/
def orderMoqFromCheapest (p : Product) (suppliers : List Supplier) :
    Option (String × Int) :=
  match pickCheapest (heuristicOffers p suppliers) with
  | some (sid, _) => some (sid, p.MOQ)
  | none => none

/-- Models `if t in pending_shipments[p.id]: inv[p.id] += ...; del ...` — the
on-hand inventory and per-product pending dict after arrivals land. -/
def afterArrival (pend0 : List (Int × ℚ)) (inv0 : ℚ) (t : Int) : ℚ × List (Int × ℚ) :=
  match dget pend0 t with
  | some q => (inv0 + q, dremove t pend0)
  | none => (inv0, pend0)

/-- The order block: conditional MOQ order from the cheapest supplier,
recorded as a procurement entry at `t`, plus pending/shipments entries at
`t + lead_time` when that arrival period is inside the horizon.  Returns the
new `(procurement, shipments, pending[p.id])`. -/
def placeOrder (data : InputData) (t : Int) (st : HState) (p : Product)
    (pend1 : List (Int × ℚ)) (projected : ℚ) (irec : InventoryRec) :
    List ((String × String × Int) × ℚ) × List ((String × String × Int) × ℚ) ×
      List (Int × ℚ) :=
  let ord :=
    if projected < irec.safety_stock then orderMoqFromCheapest p data.suppliers else none
  match ord with
  | some (sid, oq) =>
    let qty : ℚ := (oq : ℚ)
    let proc' := dinsert (p.id, sid, t) qty st.procurement
    let arrival := t + ltOf data sid p.id
    if arrival ∈ sortedPeriods data.demand then
      (proc', dinsertAdd (p.id, sid, arrival) qty st.shipments,
        dinsertAdd arrival qty pend1)
    else (proc', st.shipments, pend1)
  | none => (st.procurement, st.shipments, pend1)

/-- The pure part of one product iteration of the period loop, given the
three dict entries whose Python accesses could raise. -/
def heuristicCore (data : InputData) (t : Int) (st : HState) (p : Product)
    (pend0 : List (Int × ℚ)) (inv0 : ℚ) (irec : InventoryRec) : HState :=
  let arrived := afterArrival pend0 inv0 t
  let inv1 := arrived.1
  let pend1 := arrived.2
  let projected := projectInventory data p.id t inv1 pend1
  let placed := placeOrder data t st p pend1 projected irec
  let inv2 := max 0 (inv1 - demandQ data p.id t)
  { inv := dinsert p.id inv2 st.inv,
    pending := dinsert p.id placed.2.2 st.pending,
    procurement := placed.1,
    shipments := placed.2.1,
    invPlan := dinsert (p.id, t) inv2 st.invPlan }

/-- One product iteration of the period loop in `HeuristicSolver.solve`:
arrival of pending shipments, projection, conditional MOQ order, demand
application floored at 0, and recording of end-of-period inventory.
Products without an inventory record make the Python code raise `KeyError`
(`pending_shipments[p.id]`, `inv[p.id]`, `inventory_map[p.id]`), hence the
`Except`. -/
def heuristicInner (data : InputData) (t : Int) (st : HState) (p : Product) :
    Except String HState :=
  match dget st.pending p.id, dget st.inv p.id, dget (invMap data) p.id with
  | some pend0, some inv0, some irec => .ok (heuristicCore data t st p pend0 inv0 irec)
  | _, _, _ => .error "KeyError"

/-- Loop `for p in products` at a fixed period. -/
def foldProducts (data : InputData) (t : Int) : List Product → HState → Except String HState
  | [], st => .ok st
  | p :: rest, st =>
    match heuristicInner data t st p with
    | .ok st' => foldProducts data t rest st'
    | .error e => .error e

/-- Loop `for t in periods`. -/
def foldPeriods (data : InputData) : List Int → HState → Except String HState
  | [], st => .ok st
  | t :: rest, st =>
    match foldProducts data t data.products st with
    | .ok st' => foldPeriods data rest st'
    | .error e => .error e

/-- Models `inv = {i.product_id: i.initial_stock for i in inventory}` and
`pending_shipments = {i.product_id: {} for i in inventory}`. -/
def heuristicInitState (data : InputData) : HState :=
  { inv := mkDict (data.inventory.map fun r => (r.product_id, r.initial_stock)),
    pending := mkDict (data.inventory.map fun r => (r.product_id, ([] : List (Int × ℚ)))),
    procurement := [], shipments := [], invPlan := [] }

/-- The solution record every solver returns (the heuristic one carries no
objective). -/
structure HSolution where
  status : String
  procurement_plan : List ((String × String × Int) × ℚ)
  shipments_plan : List ((String × String × Int) × ℚ)
  inventory : List ((String × Int) × ℚ)
deriving DecidableEq

/-- Models `HeuristicSolver.solve`. -/
def heuristicSolve (data : InputData) : Except String HSolution :=
  match foldPeriods data (sortedPeriods data.demand) (heuristicInitState data) with
  | .error e => .error e
  | .ok st =>
    .ok { status := "heuristic",
          procurement_plan := completeProcurementPlan st.procurement (productIds data)
            (supplierIds data) (sortedPeriods data.demand),
          shipments_plan := st.shipments.filter fun kv => decide (0 < kv.2),
          inventory := st.invPlan }

/-! ## The discount-aware planner (src/solvers/nonlinear.py)

`NonlinearSolver` hands a Pyomo NLP to IPOPT; the engine's returned
`procure` values are the function `q` below.  What the claims exercise is
the piecewise cost summand (`procurement_cost_rule`) and the decoding step
(`_extract_solution`). -/

/-- One `(i, j, t)` summand of `procurement_cost_rule`: `qty * unit_cost`
up to the discount threshold, discounted above it; a product without a
discount policy has `threshold = 0`, `discount = 0.0`. -/
def orderCost (p : Product) (j : String) (qty : ℚ) : ℚ :=
  let unit_cost : ℚ := (dget p.unit_cost_by_supplier j).getD 1000000
  let threshold : Int := match p.discounts with | some d => d.threshold | none => 0
  let discount : ℚ := match p.discounts with | some d => d.discount | none => 0
  if qty ≤ (threshold : ℚ) then qty * unit_cost
  else (threshold : ℚ) * unit_cost + (qty - (threshold : ℚ)) * unit_cost * (1 - discount)

/-- Models `procurement_cost_rule` summed over all variables. -/
def nonlinearProcurementCost (data : InputData) (q : String → String → Int → ℚ) : ℚ :=
  (((productIds data).map fun i =>
    ((supplierIds data).map fun j =>
      ((sortedPeriods data.demand).map fun t =>
        orderCost (productRec data i) j (q i j t)).sum).sum).sum)

/-- The shipments-plan writes of `NonlinearSolver._extract_solution`, in
iteration order: one event per strictly positive order whose arrival period
`t + lead_time` lies inside the horizon. -/
def shipEvents (data : InputData) (q : String → String → Int → ℚ) :
    List ((String × String × Int) × ℚ) :=
  (allTriples data).filterMap fun k =>
    if 0 < q k.1 k.2.1 k.2.2 ∧ (k.2.2 + ltOf data k.2.1 k.1) ∈ sortedPeriods data.demand
    then some ((k.1, k.2.1, k.2.2 + ltOf data k.2.1 k.1), q k.1 k.2.1 k.2.2)
    else none

/-- The shipments plan of `NonlinearSolver._extract_solution`
(`shipments_plan[key] = shipments_plan.get(key, 0) + qty`). -/
def extractShipments (data : InputData) (q : String → String → Int → ℚ) :
    List ((String × String × Int) × ℚ) :=
  accumFold (shipEvents data q) []

/-- The sparse procurement plan of `NonlinearSolver._extract_solution`. -/
def nonlinearSparsePlan (data : InputData) (q : String → String → Int → ℚ) :
    List ((String × String × Int) × ℚ) :=
  mkKeyed (allTriples data) (fun k => q k.1 k.2.1 k.2.2)
    (fun k => decide (0 < q k.1 k.2.1 k.2.2))

/-- The densified procurement plan the discount-aware planner returns. -/
def nonlinearProcPlan (data : InputData) (q : String → String → Int → ℚ) :
    List ((String × String × Int) × ℚ) :=
  completeProcurementPlan (nonlinearSparsePlan data q) (productIds data) (supplierIds data)
    (sortedPeriods data.demand)

/-! ## Concrete witness data -/

def prodW : Product :=
  { id := "A", name := "widget", unit_cost_by_supplier := [("S", 3)],
    expiration_periods := 100, MOQ := 2, discounts := none }

def supW : Supplier :=
  { id := "S", name := "acme", products_offered := ["A"],
    minimum_order_value := 0, lead_times := [("A", 1)] }

def demW : DemandRec := { product_id := "A", period := 0, expected_quantity := 4 }

def invW : InventoryRec :=
  { product_id := "A", initial_stock := 5, holding_cost := 1,
    warehouse_capacity := 10, safety_stock := 1 }

def logW : LogisticsRec :=
  { supplier_id := "S", product_id := "A", cost_per_unit := 1, fixed_cost := 2 }

def linDataW : InputData :=
  { products := [prodW], suppliers := [supW], demand := [demW],
    inventory := [invW], logistics_cost := [logW] }

def linAssignW : Assignment :=
  { procure := fun _ _ _ => 0, inv := fun _ _ => 1, y := fun _ _ _ => 0 }

def discProdW : Product :=
  { id := "D", name := "disc", unit_cost_by_supplier := [("S", 2)],
    expiration_periods := 100, MOQ := 1,
    discounts := some { threshold := 10, discount := 1/5 } }

/-- Input refuting C1's heuristic clause: product `A` has safety stock 5 but
no supplier exists, product `B` starts with 200 units against a warehouse
capacity of 100. -/
def cexC1ProdA : Product :=
  { id := "A", name := "a", unit_cost_by_supplier := [], expiration_periods := 100,
    MOQ := 5, discounts := none }

def cexC1ProdB : Product :=
  { id := "B", name := "b", unit_cost_by_supplier := [], expiration_periods := 100,
    MOQ := 5, discounts := none }

def cexC1DemA : DemandRec := { product_id := "A", period := 0, expected_quantity := 10 }

def cexC1DemB : DemandRec := { product_id := "B", period := 0, expected_quantity := 0 }

def cexC1InvA : InventoryRec :=
  { product_id := "A", initial_stock := 0, holding_cost := 1, warehouse_capacity := 100,
    safety_stock := 5 }

def cexC1InvB : InventoryRec :=
  { product_id := "B", initial_stock := 200, holding_cost := 1, warehouse_capacity := 100,
    safety_stock := 0 }

def cexC1Data : InputData :=
  { products := [cexC1ProdA, cexC1ProdB], suppliers := [],
    demand := [cexC1DemA, cexC1DemB], inventory := [cexC1InvA, cexC1InvB],
    logistics_cost := [] }

/-- The plan the heuristic returns on `cexC1Data`. -/
def cexC1Sol : HSolution :=
  { status := "heuristic", procurement_plan := [], shipments_plan := [],
    inventory := [(("A", 0), 0), (("B", 0), 200)] }

/-! ## C9/C10 machinery: totality of the heuristic under inventory coverage -/

/-- Every product id has an on-hand and a pending entry (the keys the
simulation reads before writing them back). -/
def Cover (data : InputData) (st : HState) : Prop :=
  ∀ p ∈ data.products, (dget st.inv p.id).isSome = true ∧
    (dget st.pending p.id).isSome = true

/-- Input refuting C9's "for every input": a referentially valid input whose
product `A` has demand but no inventory record. -/
def cexC9Prod : Product :=
  { id := "A", name := "a", unit_cost_by_supplier := [], expiration_periods := 100,
    MOQ := 5, discounts := none }

def cexC9Dem : DemandRec := { product_id := "A", period := 0, expected_quantity := 5 }

def cexC9Data : InputData :=
  { products := [cexC9Prod], suppliers := [], demand := [cexC9Dem], inventory := [],
    logistics_cost := [] }

/-- The procurement-plan invariant behind C3's heuristic clause: every
recorded order key names a supplier that offers the product and a product
record priced for that supplier. -/
def ProcKeysOk (data : InputData) (st : HState) : Prop :=
  ∀ kv ∈ st.procurement, ∃ sup ∈ data.suppliers, sup.id = kv.1.2.1 ∧
    kv.1.1 ∈ sup.products_offered ∧ ∃ prod ∈ data.products, prod.id = kv.1.1 ∧
      (dget prod.unit_cost_by_supplier sup.id).isSome = true

def c3WitProd : Product :=
  { id := "A", name := "a", unit_cost_by_supplier := [("S", 3)],
    expiration_periods := 100, MOQ := 5, discounts := none }

def c3WitSup : Supplier :=
  { id := "S", name := "s", products_offered := ["A"],
    minimum_order_value := 0, lead_times := [("A", 1)] }

def c3WitInv : InventoryRec :=
  { product_id := "A", initial_stock := 0, holding_cost := 1, warehouse_capacity := 100,
    safety_stock := 3 }

def c3WitDem0 : DemandRec := { product_id := "A", period := 0, expected_quantity := 0 }

def c3WitDem1 : DemandRec := { product_id := "A", period := 1, expected_quantity := 20 }

def c3WitData : InputData :=
  { products := [c3WitProd], suppliers := [c3WitSup], demand := [c3WitDem0, c3WitDem1],
    inventory := [c3WitInv], logistics_cost := [] }

/-- The plan the heuristic returns on `c3WitData`: an MOQ order in period 0
from the only (offering) supplier, arriving in period 1. -/
def c3WitSol : HSolution :=
  { status := "heuristic",
    procurement_plan := [(("A", "S", 0), 5), (("A", "S", 1), 0)],
    shipments_plan := [(("A", "S", 1), 5)],
    inventory := [(("A", 0), 0), (("A", 1), 0)] }

/-! ## C3 counterexample: the exact planner can select a non-offering,
unpriced supplier -/

/-- Product `A` has no unit-cost mapping at all, and the only supplier
offers nothing; demand still must be met. -/
def cexC3Prod : Product :=
  { id := "A", name := "a", unit_cost_by_supplier := [], expiration_periods := 10,
    MOQ := 1, discounts := none }

def cexC3Sup : Supplier :=
  { id := "S", name := "s", products_offered := [], minimum_order_value := 0,
    lead_times := [] }

def cexC3Dem : DemandRec := { product_id := "A", period := 0, expected_quantity := 10 }

def cexC3Inv : InventoryRec :=
  { product_id := "A", initial_stock := 0, holding_cost := 1, warehouse_capacity := 100,
    safety_stock := 0 }

def cexC3Data : InputData :=
  { products := [cexC3Prod], suppliers := [cexC3Sup], demand := [cexC3Dem],
    inventory := [cexC3Inv], logistics_cost := [] }

/-- The (unique) optimal assignment: buy the 10 demanded units from the
non-offering supplier at the `1e6` default price. -/
def cexC3Assign : Assignment :=
  { procure := fun _ _ _ => 10, inv := fun _ _ => 0, y := fun _ _ _ => 1 }

/-! ## C4: a product with zero safety stock is never ordered -/

/-- Invariant for C4: product `pid` has non-negative on-hand inventory, an
empty pending-shipments dict, and no procurement entry. -/
def NoOrderInv (pid : String) (st : HState) : Prop :=
  (∀ v, dget st.inv pid = some v → 0 ≤ v) ∧
  (∀ l, dget st.pending pid = some l → l = []) ∧
  (∀ kv ∈ st.procurement, kv.1.1 ≠ pid)

def c4WitInv : InventoryRec :=
  { product_id := "A", initial_stock := 0, holding_cost := 1, warehouse_capacity := 100,
    safety_stock := 0 }

def c4WitData : InputData :=
  { products := [c3WitProd], suppliers := [c3WitSup], demand := [c3WitDem0, c3WitDem1],
    inventory := [c4WitInv], logistics_cost := [] }

/-- The plan the heuristic returns on `c4WitData`: no orders at all. -/
def c4WitSol : HSolution :=
  { status := "heuristic",
    procurement_plan := [(("A", "S", 0), 0), (("A", "S", 1), 0)],
    shipments_plan := [], inventory := [(("A", 0), 0), (("A", 1), 0)] }

/-- The shipments/procurement relation the heuristic simulation maintains:
the shipments dict holds, at key `(i, s, a)` with `a` inside the horizon,
exactly the procurement entry placed at `a - lead_time(s, i)`, and nothing
at all outside the horizon. -/
def ShipRel (data : InputData) (st : HState) : Prop :=
  ∀ i s : String, ∀ a : Int,
    dget st.shipments (i, s, a) =
      if a ∈ sortedPeriods data.demand then dget st.procurement (i, s, a - ltOf data s i)
      else none

/-! # Theorems -/

theorem dget_dinsert {κ β : Type} [DecidableEq κ] (k : κ) (v : β) (d : List (κ × β)) (a : κ) :
    dget (dinsert k v d) a = if a = k then some v else dget d a := by
  induction d with
  | nil => simp [dinsert, dget]
  | cons hd tl ih =>
    obtain ⟨k', v'⟩ := hd
    by_cases hk : k = k'
    · subst hk
      by_cases ha : a = k <;> simp [dinsert, dget, ha]
    · by_cases ha : a = k'
      · subst ha
        simp [dinsert, dget, hk, Ne.symm hk]
      · simp [dinsert, dget, hk, ha, ih]

theorem dget_dremove {κ β : Type} [DecidableEq κ] (k : κ) (d : List (κ × β)) (a : κ)
    (hne : a ≠ k) : dget (dremove k d) a = dget d a := by
  induction d with
  | nil => simp [dremove]
  | cons hd tl ih =>
    obtain ⟨k', v'⟩ := hd
    by_cases hk : k = k'
    · subst hk
      simp [dremove, dget, hne]
    · by_cases ha : a = k'
      · simp [dremove, dget, hk, ha]
      · simp [dremove, dget, hk, ha, ih]

/-- Characterisation of a dict-comprehension lookup: the last matching
entry of the source list wins. -/
theorem dget_foldl_dinsert {κ β : Type} [DecidableEq κ] (l : List (κ × β))
    (d : List (κ × β)) (a : κ) :
    dget (l.foldl (fun d kv => dinsert kv.1 kv.2 d) d) a =
      l.foldl (fun acc kv => if a = kv.1 then some kv.2 else acc) (dget d a) := by
  induction l generalizing d with
  | nil => rfl
  | cons hd tl ih =>
    simp only [List.foldl_cons, ih, dget_dinsert]

theorem dget_mkDict {κ β : Type} [DecidableEq κ] (l : List (κ × β)) (a : κ) :
    dget (mkDict l) a = l.foldl (fun acc kv => if a = kv.1 then some kv.2 else acc) none := by
  simpa [mkDict, dget] using dget_foldl_dinsert l [] a

theorem lastWins_foldl_mem {κ β : Type} [DecidableEq κ] (l : List (κ × β)) (a : κ) (v : β) :
    ∀ (acc : Option β),
      l.foldl (fun acc kv => if a = kv.1 then some kv.2 else acc) acc = some v →
      (a, v) ∈ l ∨ acc = some v := by
  induction l with
  | nil => intro acc h'; exact Or.inr h'
  | cons hd tl ih =>
    intro acc h'
    simp only [List.foldl_cons] at h'
    rcases ih _ h' with hm | hacc
    · exact Or.inl (List.mem_cons_of_mem _ hm)
    · by_cases ha : a = hd.1
      · rw [if_pos ha] at hacc
        obtain ⟨hv⟩ := hacc
        subst ha
        left
        simp
      · rw [if_neg ha] at hacc
        exact Or.inr hacc

/-- Any value a dict comprehension returns comes from some entry of the
source list with that key. -/
theorem dget_mkDict_mem {κ β : Type} [DecidableEq κ] (l : List (κ × β)) (a : κ) (v : β)
    (h : dget (mkDict l) a = some v) : (a, v) ∈ l := by
  rw [dget_mkDict] at h
  rcases lastWins_foldl_mem l a v none h with hm | hnone
  · exact hm
  · exact absurd hnone (by simp)

theorem lastWins_foldl_isSome {κ β : Type} [DecidableEq κ] (l : List (κ × β)) (a : κ) (v : β) :
    ∀ (acc : Option β), (a, v) ∈ l ∨ acc.isSome →
      (l.foldl (fun acc kv => if a = kv.1 then some kv.2 else acc) acc).isSome := by
  induction l with
  | nil =>
    intro acc hacc
    rcases hacc with hm | hs
    · cases hm
    · exact hs
  | cons hd tl ih =>
    intro acc hacc
    simp only [List.foldl_cons]
    apply ih
    rcases hacc with hm | hs
    · rcases List.mem_cons.mp hm with he | ht
      · right
        rw [← he]
        simp
      · exact Or.inl ht
    · right
      by_cases ha : a = hd.1 <;> simp [ha, hs]

/-- If some entry of the source list has key `a`, the comprehension
contains key `a`. -/
theorem dget_mkDict_isSome {κ β : Type} [DecidableEq κ] (l : List (κ × β)) (a : κ) (v : β)
    (h : (a, v) ∈ l) : (dget (mkDict l) a).isSome := by
  rw [dget_mkDict]
  exact lastWins_foldl_isSome l a v none (Or.inl h)

theorem dget_eq_none_iff {κ β : Type} [DecidableEq κ] (l : List (κ × β)) (a : κ) :
    dget l a = none ↔ ∀ kv ∈ l, kv.1 ≠ a := by
  induction l with
  | nil => simp [dget]
  | cons hd tl ih =>
    obtain ⟨k, v⟩ := hd
    by_cases ha : a = k
    · subst ha
      simp [dget]
    · simp [dget, ha, ih, Ne.symm ha]

theorem mem_insertPeriod (x : Int) (l : List Int) (a : Int) :
    a ∈ insertPeriod x l ↔ a = x ∨ a ∈ l := by
  induction l with
  | nil => simp [insertPeriod]
  | cons y ys ih =>
    by_cases h1 : x < y
    · simp [insertPeriod, h1]
    · by_cases h2 : x = y
      · subst h2
        simp only [insertPeriod, if_neg h1, if_pos rfl]
        constructor
        · intro h; exact Or.inr h
        · intro h
          rcases h with h | h
          · simp [h]
          · exact h
      · simp only [insertPeriod, if_neg h1, if_neg h2, List.mem_cons, ih]
        tauto

theorem mem_sortedPeriods (demand : List DemandRec) (a : Int) :
    a ∈ sortedPeriods demand ↔ ∃ d ∈ demand, d.period = a := by
  induction demand with
  | nil => simp [sortedPeriods]
  | cons hd tl ih =>
    simp only [sortedPeriods, List.foldr_cons] at *
    rw [mem_insertPeriod, ih]
    constructor
    · intro h
      rcases h with h | ⟨d, hd', hp⟩
      · exact ⟨hd, List.mem_cons_self _ _, h.symm⟩
      · exact ⟨d, List.mem_cons_of_mem _ hd', hp⟩
    · intro ⟨d, hd', hp⟩
      rcases List.mem_cons.mp hd' with he | ht
      · left; rw [← hp, he]
      · exact Or.inr ⟨d, ht, hp⟩

theorem chain'_insertPeriod (x : Int) (l : List Int) (h : l.Chain' (· < ·)) :
    (insertPeriod x l).Chain' (· < ·) := by
  induction l with
  | nil => simp [insertPeriod]
  | cons y ys ih =>
    by_cases h1 : x < y
    · simpa [insertPeriod, h1] using h
    · by_cases h2 : x = y
      · simpa [insertPeriod, h1, h2] using h
      · have hyx : y < x := by omega
        simp only [insertPeriod, if_neg h1, if_neg h2]
        rw [List.chain'_cons']
        refine ⟨?_, ih h.tail⟩
        intro z hz
        cases ys with
        | nil =>
          simp [insertPeriod] at hz
          omega
        | cons w ws =>
          have hyw : y < w := (List.chain'_cons.mp h).1
          by_cases hxw : x < w
          · simp [insertPeriod, hxw] at hz
            omega
          · by_cases hxw2 : x = w
            · simp [insertPeriod, hxw, hxw2] at hz
              omega
            · simp [insertPeriod, hxw, hxw2] at hz
              omega

theorem sortedPeriods_chain' (demand : List DemandRec) :
    (sortedPeriods demand).Chain' (· < ·) := by
  induction demand with
  | nil => simp [sortedPeriods]
  | cons hd tl ih => exact chain'_insertPeriod _ _ ih

theorem sortedPeriods_pairwise (demand : List DemandRec) :
    (sortedPeriods demand).Pairwise (· < ·) :=
  List.chain'_iff_pairwise.mp (sortedPeriods_chain' demand)

theorem sortedPeriods_nodup (demand : List DemandRec) : (sortedPeriods demand).Nodup :=
  (sortedPeriods_pairwise demand).imp (fun hlt => ne_of_lt hlt)

theorem nodupKeys_nil {κ β : Type} : NodupKeys ([] : List (κ × β)) := by
  simp [NodupKeys]

theorem keys_dinsert {κ β : Type} [DecidableEq κ] (k : κ) (v : β) (l : List (κ × β)) (a : κ) :
    a ∈ (dinsert k v l).map (·.1) ↔ a = k ∨ a ∈ l.map (·.1) := by
  induction l with
  | nil => simp [dinsert]
  | cons hd tl ih =>
    obtain ⟨k', v'⟩ := hd
    by_cases hk : k = k'
    · subst hk
      simp [dinsert]
    · simp only [dinsert, if_neg hk, List.map_cons, List.mem_cons, ih]
      tauto

theorem nodupKeys_dinsert {κ β : Type} [DecidableEq κ] (k : κ) (v : β) (l : List (κ × β))
    (h : NodupKeys l) : NodupKeys (dinsert k v l) := by
  induction l with
  | nil => simp [dinsert, NodupKeys]
  | cons hd tl ih =>
    obtain ⟨k', v'⟩ := hd
    unfold NodupKeys at h ⊢
    simp only [List.map_cons, List.nodup_cons] at h
    by_cases hk : k = k'
    · subst hk
      simpa [dinsert] using h
    · simp only [dinsert, if_neg hk, List.map_cons, List.nodup_cons]
      refine ⟨?_, ih h.2⟩
      intro hmem
      rcases (keys_dinsert k v tl k').mp hmem with h' | h'
      · exact hk h'.symm
      · exact h.1 h'

theorem dget_eq_some_mem {κ β : Type} [DecidableEq κ] (l : List (κ × β)) (a : κ) (v : β)
    (h : dget l a = some v) : (a, v) ∈ l := by
  induction l with
  | nil => simp [dget] at h
  | cons hd tl ih =>
    obtain ⟨k, w⟩ := hd
    by_cases ha : a = k
    · subst ha
      have hw : w = v := by simpa [dget] using h
      subst hw
      exact List.mem_cons_self _ _
    · have h' : dget tl a = some v := by simpa [dget, ha] using h
      exact List.mem_cons_of_mem _ (ih h')

/-- Lookup through `{k: v for k, v in l if 0 < v}` (the shipments-plan
filter) on a dict with distinct keys. -/
theorem dget_filter_pos {κ : Type} [DecidableEq κ] (l : List (κ × ℚ)) (hnd : NodupKeys l)
    (a : κ) :
    dget (l.filter (fun kv => 0 < kv.2)) a =
      match dget l a with
      | some v => if 0 < v then some v else none
      | none => none := by
  induction l with
  | nil => simp [dget]
  | cons hd tl ih =>
    obtain ⟨k, v⟩ := hd
    unfold NodupKeys at hnd
    simp only [List.map_cons, List.nodup_cons] at hnd
    have ih' := ih hnd.2
    by_cases ha : a = k
    · subst ha
      by_cases hv : 0 < v
      · simp [List.filter, hv, dget]
      · have hnone : dget (tl.filter (fun kv => 0 < kv.2)) a = none := by
          rw [dget_eq_none_iff]
          intro kv hkv hk1
          have : kv ∈ tl := List.mem_of_mem_filter hkv
          exact hnd.1 (hk1 ▸ List.mem_map_of_mem (·.1) this)
        simp only [List.filter, decide_eq_true_eq, hv, decide_False]
        simp only [dget, if_pos rfl, hv, if_false]
        simpa [hv] using hnone
    · by_cases hv : 0 < v
      · simp only [List.filter, hv, decide_True, dget, if_neg ha]
        rw [ih']
      · simp only [List.filter, hv, decide_False, dget, if_neg ha]
        rw [ih']

/-- Dicts of the form `l.map (fun k => (k, val k))` are how the densified plan and the two
sparse extraction dicts arise: each key determines its value. -/
theorem dget_map_keyed {κ β : Type} [DecidableEq κ] (l : List κ) (val : κ → β) (a : κ) :
    dget (l.map (fun k => (k, val k))) a = if a ∈ l then some (val a) else none := by
  induction l with
  | nil => simp [dget]
  | cons hd tl ih =>
    by_cases ha : a = hd
    · subst ha
      simp [dget]
    · simp only [List.map_cons, dget, if_neg ha, ih, List.mem_cons]
      by_cases hm : a ∈ tl <;> simp [hm, ha]

theorem dget_mkKeyed {κ β : Type} [DecidableEq κ] (l : List κ) (val : κ → β) (pos : κ → Bool)
    (a : κ) :
    dget (mkKeyed l val pos) a = if a ∈ l ∧ pos a then some (val a) else none := by
  induction l with
  | nil => simp [mkKeyed, dget]
  | cons hd tl ih =>
    by_cases hp : pos hd = true
    · by_cases ha : a = hd
      · subst ha
        simp [mkKeyed, List.filterMap_cons, hp, dget]
      · have hstep : dget (mkKeyed (hd :: tl) val pos) a = dget (mkKeyed tl val pos) a := by
          simp [mkKeyed, List.filterMap_cons, hp, dget, ha]
        rw [hstep, ih]
        by_cases hm : a ∈ tl
        · simp [List.mem_cons, hm, ha]
        · simp [List.mem_cons, hm, ha]
    · have hstep : mkKeyed (hd :: tl) val pos = mkKeyed tl val pos := by
        simp [mkKeyed, List.filterMap_cons, hp]
      rw [hstep, ih]
      by_cases ha : a = hd
      · subst ha
        simp [hp]
      · simp [List.mem_cons, ha]

theorem mem_mkKeyed {κ β : Type} (l : List κ) (val : κ → β) (pos : κ → Bool)
    (kv : κ × β) (h : kv ∈ mkKeyed l val pos) :
    kv.1 ∈ l ∧ pos kv.1 = true ∧ kv.2 = val kv.1 := by
  unfold mkKeyed at h
  rcases List.mem_filterMap.mp h with ⟨k, hk, hf⟩
  by_cases hp : pos k
  · rw [if_pos hp] at hf
    obtain ⟨rfl⟩ := hf
    exact ⟨hk, hp, rfl⟩
  · rw [if_neg hp] at hf
    cases hf

theorem perm_insSorted {α : Type} [LinearOrder α] (x : α) (l : List α) :
    List.Perm (insSorted x l) (x :: l) := by
  induction l with
  | nil => simp [insSorted]
  | cons y ys ih =>
    by_cases h : x ≤ y
    · simp [insSorted, h]
    · simp only [insSorted, if_neg h]
      exact List.Perm.trans (ih.cons y) (List.Perm.swap x y ys)

theorem perm_msort {α : Type} [LinearOrder α] (l : List α) : List.Perm (msort l) l := by
  induction l with
  | nil => simp [msort]
  | cons x xs ih => exact (perm_insSorted x (msort xs)).trans (ih.cons x)

theorem mem_msort {α : Type} [LinearOrder α] (l : List α) (a : α) : a ∈ msort l ↔ a ∈ l :=
  (perm_msort l).mem_iff

theorem length_msort {α : Type} [LinearOrder α] (l : List α) : (msort l).length = l.length :=
  (perm_msort l).length_eq

theorem sorted_insSorted {α : Type} [LinearOrder α] (x : α) (l : List α)
    (h : l.Sorted (· ≤ ·)) : (insSorted x l).Sorted (· ≤ ·) := by
  induction l with
  | nil => simp [insSorted]
  | cons y ys ih =>
    by_cases hxy : x ≤ y
    · simp only [insSorted, if_pos hxy]
      rw [List.sorted_cons]
      refine ⟨?_, h⟩
      intro b hb
      rcases List.mem_cons.mp hb with rfl | hb'
      · exact hxy
      · exact hxy.trans ((List.sorted_cons.mp h).1 b hb')
    · simp only [insSorted, if_neg hxy]
      rw [List.sorted_cons] at h ⊢
      refine ⟨?_, ih h.2⟩
      intro b hb
      rcases List.mem_cons.mp ((perm_insSorted x ys).mem_iff.mp hb) with rfl | hb'
      · exact le_of_lt (lt_of_not_le hxy)
      · exact h.1 b hb'

theorem sorted_msort {α : Type} [LinearOrder α] (l : List α) :
    (msort l).Sorted (· ≤ ·) := by
  induction l with
  | nil => simp [msort]
  | cons x xs ih => exact sorted_insSorted x (msort xs) ih

theorem msort_nodup {α : Type} [LinearOrder α] (l : List α) (h : l.Nodup) :
    (msort l).Nodup := (perm_msort l).nodup_iff.mpr h

theorem msort_pairwise_lt {α : Type} [LinearOrder α] (l : List α) (h : l.Nodup) :
    (msort l).Pairwise (· < ·) := by
  have hs := sorted_msort l
  have hn := msort_nodup l h
  exact (List.Pairwise.and_mem.mp hs).imp₂ (fun a b hab hne => lt_of_le_of_ne hab.2.2 hne) hn

/-- When the event keys are pairwise distinct, accumulating them into an
empty dict is a plain association list. -/
theorem dget_accumFold_nodupKeys {κ : Type} [DecidableEq κ] (events : List (κ × ℚ))
    (h : NodupKeys events) (k : κ) : dget (accumFold events []) k = dget events k := by
  suffices H : ∀ d : List (κ × ℚ), (∀ kv ∈ events, dget d kv.1 = none) →
      dget (accumFold events d) k = match dget events k with
        | some v => some v
        | none => dget d k by
    have := H [] (by intro kv _; simp [dget])
    rcases hv : dget events k with _ | v <;> simp [hv] at this <;> simp [this, hv, dget]
  induction events with
  | nil => intro d _; simp [accumFold, dget]
  | cons hd tl ih =>
    intro d hnone
    obtain ⟨k', v'⟩ := hd
    have hd_none : dget d k' = none := hnone (k', v') (List.mem_cons_self _ _)
    have hstep : dinsertAdd k' v' d = dinsert k' v' d := by
      simp [dinsertAdd, hd_none]
    unfold NodupKeys at h
    simp only [List.map_cons, List.nodup_cons] at h
    have htl : ∀ kv ∈ tl, dget (dinsert k' v' d) kv.1 = none := by
      intro kv hkv
      rw [dget_dinsert]
      have hne : kv.1 ≠ k' := by
        intro he
        exact h.1 (he ▸ List.mem_map_of_mem (·.1) hkv)
      rw [if_neg hne]
      exact hnone kv (List.mem_cons_of_mem _ hkv)
    have ihd := ih h.2 (dinsert k' v' d) htl
    simp only [accumFold, List.foldl_cons, hstep] at ihd ⊢
    rw [ihd]
    by_cases hk : k = k'
    · subst hk
      have : dget tl k = none := by
        rw [dget_eq_none_iff]
        intro kv hkv he
        exact h.1 (he ▸ List.mem_map_of_mem (·.1) hkv)
      simp [dget, this, dget_dinsert]
    · rcases hv : dget tl k with _ | v
      · simp [dget, hk, hv, dget_dinsert]
      · simp [dget, hk, hv]

theorem mem_orderedTriples (product_ids supplier_ids : List String) (periods : List Int)
    (k : String × String × Int) :
    k ∈ orderedTriples product_ids supplier_ids periods ↔
      k.1 ∈ product_ids ∧ k.2.1 ∈ supplier_ids ∧ k.2.2 ∈ periods := by
  obtain ⟨p, s, t⟩ := k
  unfold orderedTriples
  simp only [List.mem_flatMap, List.mem_map, mem_msort]
  constructor
  · rintro ⟨s', hs', p', hp', t', ht', he⟩
    simp only [Prod.mk.injEq] at he
    obtain ⟨he1, he2, he3⟩ := he
    exact ⟨he1 ▸ hp', he2 ▸ hs', he3 ▸ ht'⟩
  · rintro ⟨hp, hs, ht⟩
    exact ⟨s, hs, p, hp, t, ht, rfl⟩

theorem length_orderedTriples (product_ids supplier_ids : List String) (periods : List Int) :
    (orderedTriples product_ids supplier_ids periods).length =
      product_ids.length * supplier_ids.length * periods.length := by
  unfold orderedTriples
  rw [List.length_flatMap]
  have hinner : ∀ s : String,
      ((msort product_ids).flatMap fun p => (msort periods).map fun t => (p, s, t)).length =
        product_ids.length * periods.length := by
    intro s
    rw [List.length_flatMap]
    have : ∀ p : String, (((msort periods).map fun t => (p, s, t))).length = periods.length := by
      intro p
      rw [List.length_map, length_msort]
    calc (List.map (List.length ∘ fun p => (msort periods).map fun t => (p, s, t))
            (msort product_ids)).sum
        = (List.map (fun _ : String => periods.length) (msort product_ids)).sum := by
          apply congrArg
          apply List.map_congr_left
          intro p _
          exact this p
      _ = product_ids.length * periods.length := by
          rw [List.map_const', List.sum_replicate, smul_eq_mul, length_msort]
  calc (List.map (List.length ∘ fun s =>
          (msort product_ids).flatMap fun p => (msort periods).map fun t => (p, s, t))
          (msort supplier_ids)).sum
      = (List.map (fun _ : String => product_ids.length * periods.length)
          (msort supplier_ids)).sum := by
        apply congrArg
        apply List.map_congr_left
        intro s _
        exact hinner s
    _ = supplier_ids.length * (product_ids.length * periods.length) := by
        rw [List.map_const', List.sum_replicate, smul_eq_mul, length_msort]
    _ = product_ids.length * supplier_ids.length * periods.length := by ring

theorem pairwise_flatMap_of {α β : Type} {S : α → α → Prop} {R : β → β → Prop}
    (l : List α) (f : α → List β) (hl : l.Pairwise S)
    (hf : ∀ a ∈ l, (f a).Pairwise R)
    (hcross : ∀ a b, S a b → ∀ x ∈ f a, ∀ y ∈ f b, R x y) :
    (l.flatMap f).Pairwise R := by
  induction l with
  | nil => simp
  | cons hd tl ih =>
    rw [List.flatMap_cons, List.pairwise_append]
    rw [List.pairwise_cons] at hl
    refine ⟨hf hd (List.mem_cons_self _ _), ih hl.2 (fun a ha => hf a (List.mem_cons_of_mem _ ha)), ?_⟩
    intro x hx y hy
    rcases List.mem_flatMap.mp hy with ⟨b, hb, hyb⟩
    exact hcross hd b (hl.1 b hb) x hx y hyb

theorem pairwise_orderedTriples (product_ids supplier_ids : List String) (periods : List Int)
    (hp : product_ids.Nodup) (hs : supplier_ids.Nodup) (ht : periods.Nodup) :
    (orderedTriples product_ids supplier_ids periods).Pairwise PlanKeyLt := by
  unfold orderedTriples
  apply pairwise_flatMap_of (S := (· < ·)) _ _ (msort_pairwise_lt _ hs)
  · intro s _
    apply pairwise_flatMap_of (S := (· < ·)) _ _ (msort_pairwise_lt _ hp)
    · intro p _
      rw [List.pairwise_map]
      exact (msort_pairwise_lt _ ht).imp (fun hlt => Or.inr ⟨rfl, Or.inr ⟨rfl, hlt⟩⟩)
    · intro p1 p2 hplt x hx y hy
      rcases List.mem_map.mp hx with ⟨t1, _, hx1⟩
      rcases List.mem_map.mp hy with ⟨t2, _, hy1⟩
      rw [← hx1, ← hy1]
      exact Or.inr ⟨rfl, Or.inl hplt⟩
  · intro s1 s2 hslt x hx y hy
    rcases List.mem_flatMap.mp hx with ⟨p1, _, hx1⟩
    rcases List.mem_map.mp hx1 with ⟨t1, _, hx2⟩
    rcases List.mem_flatMap.mp hy with ⟨p2, _, hy1⟩
    rcases List.mem_map.mp hy1 with ⟨t2, _, hy2⟩
    rw [← hx2, ← hy2]
    exact Or.inl hslt

theorem mem_allTriples (data : InputData) (k : String × String × Int) :
    k ∈ allTriples data ↔
      k.1 ∈ productIds data ∧ k.2.1 ∈ supplierIds data ∧
        k.2.2 ∈ sortedPeriods data.demand := by
  obtain ⟨i, j, t⟩ := k
  unfold allTriples
  simp only [List.mem_flatMap, List.mem_map]
  constructor
  · rintro ⟨i', hi', j', hj', t', ht', he⟩
    simp only [Prod.mk.injEq] at he
    obtain ⟨he1, he2, he3⟩ := he
    exact ⟨he1 ▸ hi', he2 ▸ hj', he3 ▸ ht'⟩
  · rintro ⟨hi, hj, ht⟩
    exact ⟨i, hi, j, hj, t, ht, rfl⟩

theorem mem_allPairs (data : InputData) (k : String × Int) :
    k ∈ allPairs data ↔ k.1 ∈ productIds data ∧ k.2 ∈ sortedPeriods data.demand := by
  obtain ⟨i, t⟩ := k
  unfold allPairs
  simp only [List.mem_flatMap, List.mem_map]
  constructor
  · rintro ⟨i', hi', t', ht', he⟩
    simp only [Prod.mk.injEq] at he
    obtain ⟨he1, he2⟩ := he
    exact ⟨he1 ▸ hi', he2 ▸ ht'⟩
  · rintro ⟨hi, ht⟩
    exact ⟨i, hi, t, ht, rfl⟩

/-- Reading the sparse procurement plan back with default `0` recovers the
assignment value (dropped keys are exactly the zero variables). -/
theorem procLookup_eq (data : InputData) (a : Assignment) (hdom : VarDomains data a)
    (i j : String) (t : Int) (hi : i ∈ productIds data) (hj : j ∈ supplierIds data)
    (ht : t ∈ sortedPeriods data.demand) :
    (dget (linearProcPlan data a) (i, j, t)).getD 0 = a.procure i j t := by
  unfold linearProcPlan
  rw [dget_mkKeyed]
  by_cases hpos : 0 < a.procure i j t
  · rw [if_pos ⟨(mem_allTriples data (i, j, t)).mpr ⟨hi, hj, ht⟩, by simpa using hpos⟩]
    rfl
  · rw [if_neg (by simp [hpos])]
    have h0 := (hdom.1 i hi j hj t ht).1
    simp only [Option.getD_none]
    exact (le_antisymm (not_lt.mp hpos) h0).symm

theorem invLookup_eq (data : InputData) (a : Assignment) (hdom : VarDomains data a)
    (i : String) (t : Int) (hi : i ∈ productIds data) (ht : t ∈ sortedPeriods data.demand) :
    (dget (linearInvPlan data a) (i, t)).getD 0 = a.inv i t := by
  unfold linearInvPlan
  rw [dget_mkKeyed]
  by_cases hpos : 0 < a.inv i t
  · rw [if_pos ⟨(mem_allPairs data (i, t)).mpr ⟨hi, ht⟩, by simpa using hpos⟩]
    rfl
  · rw [if_neg (by simp [hpos])]
    have h0 := (hdom.2 i hi t ht).1
    simp only [Option.getD_none]
    exact (le_antisymm (not_lt.mp hpos) h0).symm

/-! ## Helper lemmas for the claim proofs -/

theorem getD_index_of_mem {l : List Int} {t : Int} (h : t ∈ l) :
    ∃ k ∈ List.range l.length, l.getD k 0 = t := by
  rcases List.mem_iff_getElem.mp h with ⟨n, hn, he⟩
  exact ⟨n, List.mem_range.mpr hn, by rw [List.getD_eq_getElem l 0 hn, he]⟩

theorem getD_mem_of_range {l : List Int} {k : ℕ} (hk : k ∈ List.range l.length) :
    l.getD k 0 ∈ l := by
  have hk' := List.mem_range.mp hk
  rw [List.getD_eq_getElem l 0 hk']
  exact List.getElem_mem hk'

/-! # Settling the claims -/

/-- C6: in the discount-aware planner the cost of a single order of `qty`
units is `qty * unit_cost` up to the threshold and
`threshold * unit_cost + (qty - threshold) * unit_cost * (1 - discount)`
above it; a product without a discount policy gets threshold 0, discount 0,
hence the linear cost `qty * unit_cost`; and with threshold 10, discount
0.2, an order of 20 units costs `10*c + 10*c*0.8`, strictly below `20*c`
(for a positive unit cost `c`). -/
theorem claim_C6_discount_cost :
    (∀ (p : Product) (j : String) (qty : ℚ) (pol : DiscountPolicy),
      p.discounts = some pol →
      (qty ≤ (pol.threshold : ℚ) →
        orderCost p j qty = qty * (dget p.unit_cost_by_supplier j).getD 1000000) ∧
      ((pol.threshold : ℚ) < qty →
        orderCost p j qty =
          (pol.threshold : ℚ) * (dget p.unit_cost_by_supplier j).getD 1000000
          + (qty - (pol.threshold : ℚ)) * (dget p.unit_cost_by_supplier j).getD 1000000
            * (1 - pol.discount))) ∧
    (∀ (p : Product) (j : String) (qty : ℚ), p.discounts = none →
      orderCost p j qty = qty * (dget p.unit_cost_by_supplier j).getD 1000000) ∧
    (∀ (p : Product) (j : String) (c : ℚ),
      p.discounts = some { threshold := 10, discount := 1/5 } →
      dget p.unit_cost_by_supplier j = some c → 0 < c →
      orderCost p j 20 = 10 * c + 10 * c * (1 - 1/5) ∧ orderCost p j 20 < 20 * c) := by
  refine ⟨?_, ?_, ?_⟩
  · intro p j qty pol hpol
    constructor
    · intro hle
      simp [orderCost, hpol, hle]
    · intro hlt
      rw [orderCost]
      simp only [hpol]
      rw [if_neg (not_le.mpr hlt)]
  · intro p j qty hnone
    rw [orderCost]
    simp only [hnone]
    by_cases h0 : qty ≤ ((0 : Int) : ℚ)
    · rw [if_pos h0]
    · rw [if_neg h0]
      push_cast
      ring
  · intro p j c hpol hc hcpos
    have h20 : ¬ ((20 : ℚ) ≤ (((10 : Int) : ℚ))) := by norm_num
    constructor
    · rw [orderCost]
      simp only [hpol, hc, Option.getD_some]
      rw [if_neg h20]
      push_cast
      ring
    · rw [orderCost]
      simp only [hpol, hc, Option.getD_some]
      rw [if_neg h20]
      push_cast
      nlinarith

/-- C6 witness: a concrete product with threshold 10, discount 1/5 and unit
cost 2; an order of 20 costs 36 < 40. -/
theorem claim_C6_discount_cost_witness :
    discProdW.discounts = some { threshold := 10, discount := 1/5 } ∧
    dget discProdW.unit_cost_by_supplier "S" = some 2 ∧ (0 : ℚ) < 2 ∧
    (orderCost discProdW "S" 20 = 10 * 2 + 10 * 2 * (1 - 1/5) ∧
      orderCost discProdW "S" 20 < 20 * 2) :=
  ⟨rfl, by decide, by norm_num,
    claim_C6_discount_cost.2.2 discProdW "S" 2 rfl (by decide) (by norm_num)⟩

/-- Decomposition of `heuristicSolve data = .ok sol`. -/
theorem heuristicSolve_ok_inv (data : InputData) (sol : HSolution)
    (h : heuristicSolve data = Except.ok sol) :
    ∃ st, foldPeriods data (sortedPeriods data.demand) (heuristicInitState data) =
        Except.ok st ∧
      sol.status = "heuristic" ∧
      sol.procurement_plan = completeProcurementPlan st.procurement (productIds data)
        (supplierIds data) (sortedPeriods data.demand) ∧
      sol.shipments_plan = st.shipments.filter (fun kv => decide (0 < kv.2)) ∧
      sol.inventory = st.invPlan := by
  unfold heuristicSolve at h
  rcases hf : foldPeriods data (sortedPeriods data.demand) (heuristicInitState data)
    with e | st <;> rw [hf] at h
  · cases h
  · cases h
    exact ⟨st, rfl, rfl, rfl, rfl, rfl⟩

theorem completePlan_length (plan : List ((String × String × Int) × ℚ))
    (product_ids supplier_ids : List String) (periods : List Int) :
    (completeProcurementPlan plan product_ids supplier_ids periods).length =
      product_ids.length * supplier_ids.length * periods.length := by
  rw [completeProcurementPlan, List.length_map, length_orderedTriples]

theorem completePlan_pairwise (plan : List ((String × String × Int) × ℚ))
    (product_ids supplier_ids : List String) (periods : List Int)
    (hp : product_ids.Nodup) (hs : supplier_ids.Nodup) (ht : periods.Nodup) :
    (completeProcurementPlan plan product_ids supplier_ids periods).Pairwise
      (fun kv1 kv2 => PlanKeyLt kv1.1 kv2.1) := by
  rw [completeProcurementPlan, List.pairwise_map]
  exact pairwise_orderedTriples product_ids supplier_ids periods hp hs ht

/-- C7: the densified procurement plan (shared by the discount-aware and the
heuristic planner through `_complete_procurement_plan`) has exactly
`|products| * |suppliers| * |periods|` entries, one per
`(product, supplier, period)` triple — value 0 where no order was placed and
the original value otherwise — ordered by supplier, then product, then
period; in particular the discount-aware planner's returned plan and the
heuristic planner's returned plan have exactly this shape. -/
theorem claim_C7_densified_plan (plan : List ((String × String × Int) × ℚ))
    (product_ids supplier_ids : List String) (periods : List Int)
    (hp : product_ids.Nodup) (hs : supplier_ids.Nodup) (ht : periods.Nodup) :
    ((completeProcurementPlan plan product_ids supplier_ids periods).length =
      product_ids.length * supplier_ids.length * periods.length ∧
    (completeProcurementPlan plan product_ids supplier_ids periods).Pairwise
      (fun kv1 kv2 => PlanKeyLt kv1.1 kv2.1) ∧
    (∀ p ∈ product_ids, ∀ s ∈ supplier_ids, ∀ t ∈ periods,
      ((p, s, t), (dget plan (p, s, t)).getD 0) ∈
        completeProcurementPlan plan product_ids supplier_ids periods) ∧
    (∀ kv ∈ completeProcurementPlan plan product_ids supplier_ids periods,
      kv.2 = (dget plan kv.1).getD 0 ∧ kv.1.1 ∈ product_ids ∧
        kv.1.2.1 ∈ supplier_ids ∧ kv.1.2.2 ∈ periods)) ∧
    (∀ (data : InputData) (q : String → String → Int → ℚ),
      (productIds data).Nodup → (supplierIds data).Nodup →
      (nonlinearProcPlan data q).length = (productIds data).length *
        (supplierIds data).length * (sortedPeriods data.demand).length ∧
      (nonlinearProcPlan data q).Pairwise (fun kv1 kv2 => PlanKeyLt kv1.1 kv2.1)) ∧
    (∀ (data : InputData) (sol : HSolution),
      (productIds data).Nodup → (supplierIds data).Nodup →
      heuristicSolve data = Except.ok sol →
      sol.procurement_plan.length = (productIds data).length *
        (supplierIds data).length * (sortedPeriods data.demand).length ∧
      sol.procurement_plan.Pairwise (fun kv1 kv2 => PlanKeyLt kv1.1 kv2.1)) := by
  refine ⟨⟨completePlan_length plan product_ids supplier_ids periods,
    completePlan_pairwise plan product_ids supplier_ids periods hp hs ht, ?_, ?_⟩,
    ?_, ?_⟩
  · intro p hpm s hsm t htm
    rw [completeProcurementPlan]
    exact List.mem_map_of_mem _
      ((mem_orderedTriples product_ids supplier_ids periods (p, s, t)).mpr ⟨hpm, hsm, htm⟩)
  · intro kv hkv
    rw [completeProcurementPlan] at hkv
    rcases List.mem_map.mp hkv with ⟨k, hk, he⟩
    have hmem := (mem_orderedTriples product_ids supplier_ids periods k).mp hk
    rw [← he]
    exact ⟨rfl, hmem.1, hmem.2.1, hmem.2.2⟩
  · intro data q hp' hs'
    exact ⟨completePlan_length _ _ _ _,
      completePlan_pairwise _ _ _ _ hp' hs' (sortedPeriods_nodup data.demand)⟩
  · intro data sol hp' hs' hok
    rcases heuristicSolve_ok_inv data sol hok with ⟨st, _, _, hplan, _, _⟩
    rw [hplan]
    exact ⟨completePlan_length _ _ _ _,
      completePlan_pairwise _ _ _ _ hp' hs' (sortedPeriods_nodup data.demand)⟩

/-- C7 witness: two products, two suppliers, two periods with one sparse
entry densify to eight ordered entries. -/
theorem claim_C7_densified_plan_witness :
    (["B", "A"] : List String).Nodup ∧ (["S2", "S1"] : List String).Nodup ∧
      ([1, 0] : List Int).Nodup ∧
    (((completeProcurementPlan [(("A", "S2", 1), 7)] ["B", "A"] ["S2", "S1"] [1, 0]).length =
        2 * 2 * 2 ∧
      (completeProcurementPlan [(("A", "S2", 1), 7)] ["B", "A"] ["S2", "S1"] [1, 0]).Pairwise
        (fun kv1 kv2 => PlanKeyLt kv1.1 kv2.1) ∧
      (∀ p ∈ (["B", "A"] : List String), ∀ s ∈ (["S2", "S1"] : List String),
        ∀ t ∈ ([1, 0] : List Int),
        ((p, s, t), (dget [(("A", "S2", 1), 7)] (p, s, t)).getD 0) ∈
          completeProcurementPlan [(("A", "S2", 1), 7)] ["B", "A"] ["S2", "S1"] [1, 0]) ∧
      (∀ kv ∈ completeProcurementPlan [(("A", "S2", 1), 7)] ["B", "A"] ["S2", "S1"] [1, 0],
        kv.2 = (dget [(("A", "S2", 1), 7)] kv.1).getD 0 ∧ kv.1.1 ∈ (["B", "A"] : List String) ∧
          kv.1.2.1 ∈ (["S2", "S1"] : List String) ∧ kv.1.2.2 ∈ ([1, 0] : List Int))) ∧
    (∀ (data : InputData) (q : String → String → Int → ℚ),
      (productIds data).Nodup → (supplierIds data).Nodup →
      (nonlinearProcPlan data q).length = (productIds data).length *
        (supplierIds data).length * (sortedPeriods data.demand).length ∧
      (nonlinearProcPlan data q).Pairwise (fun kv1 kv2 => PlanKeyLt kv1.1 kv2.1)) ∧
    (∀ (data : InputData) (sol : HSolution),
      (productIds data).Nodup → (supplierIds data).Nodup →
      heuristicSolve data = Except.ok sol →
      sol.procurement_plan.length = (productIds data).length *
        (supplierIds data).length * (sortedPeriods data.demand).length ∧
      sol.procurement_plan.Pairwise (fun kv1 kv2 => PlanKeyLt kv1.1 kv2.1))) :=
  ⟨by decide, by decide, by decide,
    claim_C7_densified_plan [(("A", "S2", 1), 7)] ["B", "A"] ["S2", "S1"] [1, 0]
      (by decide) (by decide) (by decide)⟩

/-- C5: under any constraint-satisfying assignment (which an `"Optimal"`
status guarantees), every strictly positive entry of the exact planner's
extracted procurement plan is at least the product's MOQ. -/
theorem claim_C5_moq (data : InputData) (a : Assignment) (h : LinearSatisfied data a) :
    ∀ kv ∈ linearProcPlan data a, ((productRec data kv.1.1).MOQ : ℚ) ≤ kv.2 := by
  intro kv hkv
  obtain ⟨⟨i, j, t⟩, v⟩ := kv
  obtain ⟨hmem, hpos, hval⟩ := mem_mkKeyed _ _ _ _ hkv
  obtain ⟨hi, hj, ht⟩ := (mem_allTriples data _).mp hmem
  have hposq : 0 < a.procure i j t := of_decide_eq_true hpos
  have hmoq := (h.2 i hi).2 j hj t ht
  have hy := ((h.1.1 i hi j hj t ht).2.2)
  rcases hy with hy0 | hy1
  · exfalso
    have hub := hmoq.2
    rw [hy0, mul_zero] at hub
    exact absurd (lt_of_lt_of_le hposq hub) (by norm_num)
  · have hlb := hmoq.1
    rw [hy1, mul_one] at hlb
    have hval' : v = a.procure i j t := hval
    rw [hval']
    exact hlb

theorem linAssignW_satisfied : LinearSatisfied linDataW linAssignW := by
  norm_num [LinearSatisfied, VarDomains, LinConstraints, BalanceAt, sumProc, linDataW,
    linAssignW, prodW, supW, demW, invW, logW, productIds, supplierIds, sortedPeriods,
    insertPeriod, invRec, productRec, invMap, productMap, demandQ, demandMap, mkDict,
    dinsert, dget, List.range_succ, List.range_zero]

/-- C1 (amended): under any constraint-satisfying assignment (which an
`"Optimal"` status guarantees), every inventory entry of the exact planner's
returned plan lies between the product's safety stock and its warehouse
capacity.  (The heuristic planner guarantees neither bound — see the
counterexample.) -/
theorem claim_C1_inventory_bounds (data : InputData) (a : Assignment)
    (h : LinearSatisfied data a) :
    ∀ kv ∈ linearInvPlan data a,
      (invRec data kv.1.1).safety_stock ≤ kv.2 ∧
        kv.2 ≤ (invRec data kv.1.1).warehouse_capacity := by
  intro kv hkv
  obtain ⟨⟨i, t⟩, v⟩ := kv
  obtain ⟨hmem, _, hval⟩ := mem_mkKeyed _ _ _ _ hkv
  obtain ⟨hi, ht⟩ := (mem_allPairs data _).mp hmem
  obtain ⟨k, hk, hgt⟩ := getD_index_of_mem ht
  have hcon := (h.2 i hi).1 k hk
  have hval' : v = a.inv i t := hval
  rw [hgt] at hcon
  exact ⟨hval' ▸ hcon.2.2.1, hval' ▸ hcon.2.1⟩

/-- C1 witness (for the amended, exact-planner statement). -/
theorem claim_C1_inventory_bounds_witness :
    LinearSatisfied linDataW linAssignW ∧
    ∀ kv ∈ linearInvPlan linDataW linAssignW,
      (invRec linDataW kv.1.1).safety_stock ≤ kv.2 ∧
        kv.2 ≤ (invRec linDataW kv.1.1).warehouse_capacity :=
  ⟨linAssignW_satisfied, claim_C1_inventory_bounds linDataW linAssignW linAssignW_satisfied⟩

/-- C1 counterexample: the heuristic planner returns (for a valid input) a
plan whose end-of-period inventory is below the safety stock for product `A`
and above the warehouse capacity for product `B`. -/
theorem claim_C1_heuristic_counterexample :
    ValidData cexC1Data ∧
    heuristicSolve cexC1Data = Except.ok cexC1Sol ∧
    ¬ (invRec cexC1Data "A").safety_stock ≤ (dget cexC1Sol.inventory ("A", 0)).getD 0 ∧
    ¬ (dget cexC1Sol.inventory ("B", 0)).getD 0 ≤ (invRec cexC1Data "B").warehouse_capacity := by
  refine ⟨?_, ?_, ?_, ?_⟩
  · norm_num [ValidData, cexC1Data, cexC1DemA, cexC1DemB, cexC1InvA, cexC1InvB,
      productIds, cexC1ProdA, cexC1ProdB]
  · have hAB : ("A" : String) ≠ "B" := by decide
    have hBA : ("B" : String) ≠ "A" := by decide
    norm_num [heuristicSolve, foldPeriods, foldProducts, heuristicInner, heuristicCore,
      heuristicInitState, afterArrival, placeOrder, projectInventory, orderMoqFromCheapest,
      heuristicOffers, pickCheapest, idxOfPeriod, sortedPeriods, insertPeriod, mkDict,
      dget, dinsert, dremove, dinsertAdd, invMap, demandMap, demandQ, ltMap, ltOf,
      completeProcurementPlan, orderedTriples, msort, insSorted, productIds, supplierIds,
      cexC1Data, cexC1ProdA, cexC1ProdB, cexC1DemA, cexC1DemB, cexC1InvA, cexC1InvB,
      cexC1Sol, List.filterMap_nil, List.filterMap_cons, hAB, hBA]
  · have hBA : ("B" : String) ≠ "A" := by decide
    norm_num [invRec, invMap, mkDict, dget, dinsert, cexC1Data, cexC1InvA, cexC1InvB,
      cexC1Sol, hBA]
  · have hBA : ("B" : String) ≠ "A" := by decide
    norm_num [invRec, invMap, mkDict, dget, dinsert, cexC1Data, cexC1InvA, cexC1InvB,
      cexC1Sol, hBA]

/-- C2: under any constraint-satisfying assignment (which an `"Optimal"`
status guarantees), the exact planner's returned plan satisfies the
inventory-balance identity `inv[i,t] = previous + Σ_j procure[i,j,t] −
demand[i,t]` for every product and every period in sorted order, with
`previous = initial_stock` for the first period and `inv[i,t-1]` otherwise,
and with procurement in period `t` counted as arriving in `t` itself (no
lead-time offset). -/
theorem claim_C2_inventory_balance (data : InputData) (a : Assignment)
    (h : LinearSatisfied data a) :
    ∀ i ∈ productIds data, ∀ k ∈ List.range (sortedPeriods data.demand).length,
      (dget (linearInvPlan data a) (i, (sortedPeriods data.demand).getD k 0)).getD 0 =
        (if k = 0 then (invRec data i).initial_stock
          else (dget (linearInvPlan data a)
            (i, (sortedPeriods data.demand).getD (k - 1) 0)).getD 0)
        + ((supplierIds data).map fun j =>
            (dget (linearProcPlan data a)
              (i, j, (sortedPeriods data.demand).getD k 0)).getD 0).sum
        - demandQ data i ((sortedPeriods data.demand).getD k 0) := by
  intro i hi k hk
  have htk : (sortedPeriods data.demand).getD k 0 ∈ sortedPeriods data.demand :=
    getD_mem_of_range hk
  have hbal : BalanceAt data a i k := ((h.2 i hi).1 k hk).1
  unfold BalanceAt at hbal
  rw [invLookup_eq data a h.1 i _ hi htk]
  have hsum : ((supplierIds data).map fun j =>
      (dget (linearProcPlan data a)
        (i, j, (sortedPeriods data.demand).getD k 0)).getD 0).sum =
      sumProc data a i ((sortedPeriods data.demand).getD k 0) := by
    unfold sumProc
    apply congrArg
    apply List.map_congr_left
    intro j hj
    exact procLookup_eq data a h.1 i j _ hi hj htk
  rw [hsum]
  by_cases hk0 : k = 0
  · rw [if_pos hk0]
    rw [if_pos hk0] at hbal
    linarith
  · rw [if_neg hk0]
    rw [if_neg hk0] at hbal
    have hk1 : k - 1 ∈ List.range (sortedPeriods data.demand).length := by
      rw [List.mem_range] at hk ⊢
      omega
    have htk1 : (sortedPeriods data.demand).getD (k - 1) 0 ∈ sortedPeriods data.demand :=
      getD_mem_of_range hk1
    rw [invLookup_eq data a h.1 i _ hi htk1]
    linarith

/-- C2 witness. -/
theorem claim_C2_inventory_balance_witness :
    LinearSatisfied linDataW linAssignW ∧
    ∀ i ∈ productIds linDataW, ∀ k ∈ List.range (sortedPeriods linDataW.demand).length,
      (dget (linearInvPlan linDataW linAssignW)
          (i, (sortedPeriods linDataW.demand).getD k 0)).getD 0 =
        (if k = 0 then (invRec linDataW i).initial_stock
          else (dget (linearInvPlan linDataW linAssignW)
            (i, (sortedPeriods linDataW.demand).getD (k - 1) 0)).getD 0)
        + ((supplierIds linDataW).map fun j =>
            (dget (linearProcPlan linDataW linAssignW)
              (i, j, (sortedPeriods linDataW.demand).getD k 0)).getD 0).sum
        - demandQ linDataW i ((sortedPeriods linDataW.demand).getD k 0) :=
  ⟨linAssignW_satisfied,
    claim_C2_inventory_balance linDataW linAssignW linAssignW_satisfied⟩

/-! ## Induction machinery for the heuristic simulation -/

theorem foldProducts_induct (data : InputData) (t : Int) (P : HState → Prop) :
    ∀ (ps : List Product) (st st' : HState),
      (∀ q ∈ ps, ∀ s s' : HState, P s → heuristicInner data t s q = Except.ok s' → P s') →
      foldProducts data t ps st = Except.ok st' → P st → P st' := by
  intro ps
  induction ps with
  | nil =>
    intro st st' _ h hP
    unfold foldProducts at h
    cases h
    exact hP
  | cons p rest ih =>
    intro st st' hstep h hP
    unfold foldProducts at h
    rcases hso : heuristicInner data t st p with e | st1 <;> rw [hso] at h
    · cases h
    · exact ih st1 st' (fun q hq => hstep q (List.mem_cons_of_mem _ hq)) h
        (hstep p (List.mem_cons_self _ _) st st1 hP hso)

theorem foldPeriods_induct (data : InputData) (P : HState → Prop) :
    ∀ (ts : List Int) (st st' : HState),
      (∀ t ∈ ts, ∀ q ∈ data.products, ∀ s s' : HState,
        P s → heuristicInner data t s q = Except.ok s' → P s') →
      foldPeriods data ts st = Except.ok st' → P st → P st' := by
  intro ts
  induction ts with
  | nil =>
    intro st st' _ h hP
    unfold foldPeriods at h
    cases h
    exact hP
  | cons t rest ih =>
    intro st st' hstep h hP
    unfold foldPeriods at h
    rcases hso : foldProducts data t data.products st with e | st1 <;> rw [hso] at h
    · cases h
    · refine ih st1 st' (fun t' ht' => hstep t' (List.mem_cons_of_mem _ ht')) h ?_
      exact foldProducts_induct data t P data.products st st1
        (fun q hq => hstep t (List.mem_cons_self _ _) q hq) hso hP

/-- A successful step comes from the pure core applied to the three dict
entries. -/
theorem heuristicInner_ok_exists (data : InputData) (t : Int) (st : HState) (p : Product)
    (st' : HState) (h : heuristicInner data t st p = Except.ok st') :
    ∃ pend0 inv0 irec,
      dget st.pending p.id = some pend0 ∧ dget st.inv p.id = some inv0 ∧
      dget (invMap data) p.id = some irec ∧
      st' = heuristicCore data t st p pend0 inv0 irec := by
  unfold heuristicInner at h
  rcases h1 : dget st.pending p.id with _ | pend0 <;> rw [h1] at h
  · cases h
  · rcases h2 : dget st.inv p.id with _ | inv0 <;> rw [h2] at h
    · cases h
    · rcases h3 : dget (invMap data) p.id with _ | irec <;> rw [h3] at h
      · cases h
      · cases h
        exact ⟨pend0, inv0, irec, rfl, rfl, rfl, rfl⟩

theorem afterArrival_cases (pend0 : List (Int × ℚ)) (inv0 : ℚ) (t : Int) :
    (dget pend0 t = none ∧ afterArrival pend0 inv0 t = (inv0, pend0)) ∨
    ∃ qq, dget pend0 t = some qq ∧
      afterArrival pend0 inv0 t = (inv0 + qq, dremove t pend0) := by
  unfold afterArrival
  rcases h : dget pend0 t with _ | qq
  · exact Or.inl ⟨rfl, rfl⟩
  · exact Or.inr ⟨qq, rfl, rfl⟩

theorem placeOrder_cases (data : InputData) (t : Int) (st : HState) (p : Product)
    (pend1 : List (Int × ℚ)) (projected : ℚ) (irec : InventoryRec) :
    (placeOrder data t st p pend1 projected irec = (st.procurement, st.shipments, pend1)) ∨
    ∃ sid oq, projected < irec.safety_stock ∧
      orderMoqFromCheapest p data.suppliers = some (sid, oq) ∧
      ((placeOrder data t st p pend1 projected irec).1 =
        dinsert (p.id, sid, t) ((oq : Int) : ℚ) st.procurement) ∧
      ((t + ltOf data sid p.id ∈ sortedPeriods data.demand ∧
        (placeOrder data t st p pend1 projected irec).2.1 =
          dinsertAdd (p.id, sid, t + ltOf data sid p.id) ((oq : Int) : ℚ) st.shipments ∧
        (placeOrder data t st p pend1 projected irec).2.2 =
          dinsertAdd (t + ltOf data sid p.id) ((oq : Int) : ℚ) pend1) ∨
       (t + ltOf data sid p.id ∉ sortedPeriods data.demand ∧
        (placeOrder data t st p pend1 projected irec).2.1 = st.shipments ∧
        (placeOrder data t st p pend1 projected irec).2.2 = pend1)) := by
  unfold placeOrder
  by_cases hcond : projected < irec.safety_stock
  · rw [if_pos hcond]
    rcases horder : orderMoqFromCheapest p data.suppliers with _ | ⟨sid, oq⟩
    · exact Or.inl rfl
    · right
      refine ⟨sid, oq, hcond, rfl, ?_⟩
      by_cases harr : t + ltOf data sid p.id ∈ sortedPeriods data.demand
      · simp [harr]
      · simp [harr]
  · rw [if_neg hcond]
    exact Or.inl rfl

/-- Record shape of the pure core (the `let`s of `heuristicCore` inlined). -/
theorem heuristicCore_eq (data : InputData) (t : Int) (st : HState) (p : Product)
    (pend0 : List (Int × ℚ)) (inv0 : ℚ) (irec : InventoryRec) :
    heuristicCore data t st p pend0 inv0 irec =
      { inv := dinsert p.id
          (max 0 ((afterArrival pend0 inv0 t).1 - demandQ data p.id t)) st.inv,
        pending := dinsert p.id
          (placeOrder data t st p (afterArrival pend0 inv0 t).2
            (projectInventory data p.id t (afterArrival pend0 inv0 t).1
              (afterArrival pend0 inv0 t).2) irec).2.2 st.pending,
        procurement := (placeOrder data t st p (afterArrival pend0 inv0 t).2
          (projectInventory data p.id t (afterArrival pend0 inv0 t).1
            (afterArrival pend0 inv0 t).2) irec).1,
        shipments := (placeOrder data t st p (afterArrival pend0 inv0 t).2
          (projectInventory data p.id t (afterArrival pend0 inv0 t).1
            (afterArrival pend0 inv0 t).2) irec).2.1,
        invPlan := dinsert (p.id, t)
          (max 0 ((afterArrival pend0 inv0 t).1 - demandQ data p.id t)) st.invPlan } := rfl

theorem heuristicInner_total (data : InputData) (t : Int) (st : HState) (p : Product)
    (hm : (dget (invMap data) p.id).isSome = true)
    (hi : (dget st.inv p.id).isSome = true)
    (hp : (dget st.pending p.id).isSome = true) :
    ∃ st', heuristicInner data t st p = Except.ok st' := by
  rcases Option.isSome_iff_exists.mp hm with ⟨irec, hirec⟩
  rcases Option.isSome_iff_exists.mp hi with ⟨inv0, hinv0⟩
  rcases Option.isSome_iff_exists.mp hp with ⟨pend0, hpend0⟩
  refine ⟨heuristicCore data t st p pend0 inv0 irec, ?_⟩
  unfold heuristicInner
  rw [hirec, hinv0, hpend0]

theorem cover_step (data : InputData) (t : Int) (st st' : HState) (p : Product)
    (h : heuristicInner data t st p = Except.ok st') (hc : Cover data st) :
    Cover data st' := by
  rcases heuristicInner_ok_exists data t st p st' h with ⟨pend0, inv0, irec, _, _, _, hcore⟩
  intro q hq
  rcases hc q hq with ⟨hqi, hqp⟩
  subst hcore
  rw [heuristicCore_eq]
  constructor
  · show (dget (dinsert p.id _ st.inv) q.id).isSome = true
    rw [dget_dinsert]
    by_cases he : q.id = p.id
    · rw [if_pos he]
      rfl
    · rw [if_neg he]
      exact hqi
  · show (dget (dinsert p.id _ st.pending) q.id).isSome = true
    rw [dget_dinsert]
    by_cases he : q.id = p.id
    · rw [if_pos he]
      rfl
    · rw [if_neg he]
      exact hqp

theorem foldProducts_total (data : InputData) (t : Int)
    (hm : ∀ p ∈ data.products, (dget (invMap data) p.id).isSome = true) :
    ∀ (ps : List Product), (∀ p ∈ ps, p ∈ data.products) → ∀ st, Cover data st →
      ∃ st', foldProducts data t ps st = Except.ok st' ∧ Cover data st' := by
  intro ps
  induction ps with
  | nil =>
    intro _ st hc
    exact ⟨st, rfl, hc⟩
  | cons p rest ih =>
    intro hsub st hc
    have hpmem := hsub p (List.mem_cons_self _ _)
    rcases hc p hpmem with ⟨hi, hp⟩
    rcases heuristicInner_total data t st p (hm p hpmem) hi hp with ⟨st1, hst1⟩
    have hc1 := cover_step data t st st1 p hst1 hc
    rcases ih (fun q hq => hsub q (List.mem_cons_of_mem _ hq)) st1 hc1 with ⟨st', hst', hc'⟩
    refine ⟨st', ?_, hc'⟩
    unfold foldProducts
    rw [hst1]
    exact hst'

theorem foldPeriods_total (data : InputData)
    (hm : ∀ p ∈ data.products, (dget (invMap data) p.id).isSome = true) :
    ∀ (ts : List Int) (st : HState), Cover data st →
      ∃ st', foldPeriods data ts st = Except.ok st' ∧ Cover data st' := by
  intro ts
  induction ts with
  | nil =>
    intro st hc
    exact ⟨st, rfl, hc⟩
  | cons t rest ih =>
    intro st hc
    rcases foldProducts_total data t hm data.products (fun _ h => h) st hc with
      ⟨st1, hst1, hc1⟩
    rcases ih st1 hc1 with ⟨st', hst', hc'⟩
    refine ⟨st', ?_, hc'⟩
    unfold foldPeriods
    rw [hst1]
    exact hst'

/-- C9 (amended): for every input in which every product has an inventory
record, the heuristic planner's solve terminates normally and returns a plan
with status `"heuristic"` — no infeasibility status and no exception —
possibly leaving demand unmet.  (Without that coverage the Python code
raises `KeyError`: see the counterexample.) -/
theorem claim_C9_heuristic_total (data : InputData)
    (hcov : ∀ p ∈ data.products, ∃ r ∈ data.inventory, r.product_id = p.id) :
    ∃ sol, heuristicSolve data = Except.ok sol ∧ sol.status = "heuristic" := by
  have hm : ∀ p ∈ data.products, (dget (invMap data) p.id).isSome = true := by
    intro p hp
    rcases hcov p hp with ⟨r, hr, hid⟩
    exact dget_mkDict_isSome _ _ r (hid ▸ List.mem_map_of_mem (fun r => (r.product_id, r)) hr)
  have hc0 : Cover data (heuristicInitState data) := by
    intro p hp
    rcases hcov p hp with ⟨r, hr, hid⟩
    constructor
    · exact dget_mkDict_isSome _ _ r.initial_stock
        (hid ▸ List.mem_map_of_mem (fun r => (r.product_id, r.initial_stock)) hr)
    · exact dget_mkDict_isSome _ _ ([] : List (Int × ℚ))
        (hid ▸ List.mem_map_of_mem (fun r => (r.product_id, ([] : List (Int × ℚ)))) hr)
  rcases foldPeriods_total data hm (sortedPeriods data.demand) (heuristicInitState data) hc0
    with ⟨st, hst, _⟩
  have hok : heuristicSolve data = Except.ok
      { status := "heuristic",
        procurement_plan := completeProcurementPlan st.procurement (productIds data)
          (supplierIds data) (sortedPeriods data.demand),
        shipments_plan := st.shipments.filter fun kv => decide (0 < kv.2),
        inventory := st.invPlan } := by
    unfold heuristicSolve
    rw [hst]
  exact ⟨_, hok, rfl⟩

/-- C9 witness: a concrete covered input on which the heuristic returns a
plan with status `"heuristic"`. -/
theorem claim_C9_heuristic_total_witness :
    (∀ p ∈ linDataW.products, ∃ r ∈ linDataW.inventory, r.product_id = p.id) ∧
    ∃ sol, heuristicSolve linDataW = Except.ok sol ∧ sol.status = "heuristic" := by
  have hcov : ∀ p ∈ linDataW.products, ∃ r ∈ linDataW.inventory, r.product_id = p.id := by
    intro p hp
    refine ⟨invW, by simp [linDataW], ?_⟩
    rcases List.mem_singleton.mp (by simpa [linDataW] using hp) with rfl
    rfl
  exact ⟨hcov, claim_C9_heuristic_total linDataW hcov⟩

/-- C9 counterexample: on `cexC9Data` — which passes `validate_data` — the
heuristic raises `KeyError` (here: returns the error) instead of a plan. -/
theorem claim_C9_counterexample :
    ValidData cexC9Data ∧ heuristicSolve cexC9Data = Except.error "KeyError" := by
  constructor
  · norm_num [ValidData, cexC9Data, cexC9Dem, productIds, cexC9Prod]
  · norm_num [heuristicSolve, foldPeriods, foldProducts, heuristicInner,
      heuristicInitState, sortedPeriods, insertPeriod, mkDict, dget, invMap, cexC9Data,
      cexC9Prod, cexC9Dem]

/-- C10: the heuristic planner is deterministic — two runs on equal input
collections return exactly the same procurement plan, shipments plan and
inventory map (the embedding of `solve` is a pure function of the five
collections; every dict it builds is iterated in insertion order, which is a
function of the input lists). -/
theorem claim_C10_determinism (d1 d2 : InputData) (h : d1 = d2) :
    (heuristicSolve d1).map (fun s => s.procurement_plan) =
      (heuristicSolve d2).map (fun s => s.procurement_plan) ∧
    (heuristicSolve d1).map (fun s => s.shipments_plan) =
      (heuristicSolve d2).map (fun s => s.shipments_plan) ∧
    (heuristicSolve d1).map (fun s => s.inventory) =
      (heuristicSolve d2).map (fun s => s.inventory) := by
  subst h
  exact ⟨rfl, rfl, rfl⟩

/-- C10 witness. -/
theorem claim_C10_determinism_witness :
    linDataW = linDataW ∧
    ((heuristicSolve linDataW).map (fun s => s.procurement_plan) =
      (heuristicSolve linDataW).map (fun s => s.procurement_plan) ∧
    (heuristicSolve linDataW).map (fun s => s.shipments_plan) =
      (heuristicSolve linDataW).map (fun s => s.shipments_plan) ∧
    (heuristicSolve linDataW).map (fun s => s.inventory) =
      (heuristicSolve linDataW).map (fun s => s.inventory)) :=
  ⟨rfl, claim_C10_determinism linDataW linDataW rfl⟩

/-! ## More heuristic machinery: the shape of placed orders -/

theorem mem_dinsert {κ β : Type} [DecidableEq κ] (k : κ) (v : β) (l : List (κ × β))
    (kv : κ × β) (h : kv ∈ dinsert k v l) : kv = (k, v) ∨ kv ∈ l := by
  induction l with
  | nil => simpa [dinsert] using h
  | cons hd tl ih =>
    obtain ⟨k', v'⟩ := hd
    by_cases hk : k = k'
    · subst hk
      rcases List.mem_cons.mp (by simpa [dinsert] using h) with he | ht
      · exact Or.inl he
      · exact Or.inr (List.mem_cons_of_mem _ ht)
    · rcases List.mem_cons.mp (by simpa [dinsert, hk] using h) with he | ht
      · exact Or.inr (he ▸ List.mem_cons_self _ _)
      · rcases ih ht with h' | h'
        · exact Or.inl h'
        · exact Or.inr (List.mem_cons_of_mem _ h')

theorem foldl_pick_mem (o : String × ℚ) (l : List (String × ℚ)) :
    l.foldl (fun best o2 => if o2.2 < best.2 then o2 else best) o ∈ o :: l := by
  induction l generalizing o with
  | nil => simp
  | cons hd tl ih =>
    simp only [List.foldl_cons]
    by_cases hlt : hd.2 < o.2
    · rw [if_pos hlt]
      rcases List.mem_cons.mp (ih hd) with he | ht
      · rw [he]
        simp
      · simp [List.mem_cons_of_mem _ ht]
    · rw [if_neg hlt]
      rcases List.mem_cons.mp (ih o) with he | ht
      · rw [he]
        simp
      · simp [List.mem_cons_of_mem _ ht]

theorem pickCheapest_mem (l : List (String × ℚ)) (o : String × ℚ)
    (h : pickCheapest l = some o) : o ∈ l := by
  cases l with
  | nil => cases h
  | cons hd tl =>
    unfold pickCheapest at h
    obtain ⟨ho⟩ := h
    exact foldl_pick_mem hd tl

/-- What a successful `_order_moq_from_cheapest` call guarantees: the chosen
supplier is in the list, offers the product, and has a unit-cost entry for
it; the order quantity is the product's MOQ. -/
theorem orderMoqFromCheapest_spec (p : Product) (suppliers : List Supplier)
    (sid : String) (oq : Int) (h : orderMoqFromCheapest p suppliers = some (sid, oq)) :
    oq = p.MOQ ∧ ∃ sup ∈ suppliers, sup.id = sid ∧ p.id ∈ sup.products_offered ∧
      (dget p.unit_cost_by_supplier sid).isSome = true := by
  unfold orderMoqFromCheapest at h
  rcases hpick : pickCheapest (heuristicOffers p suppliers) with _ | ⟨so, co⟩ <;>
    rw [hpick] at h
  · cases h
  · rw [Option.some.injEq, Prod.mk.injEq] at h
    obtain ⟨hso, hoq⟩ := h
    have hmem := pickCheapest_mem _ _ hpick
    unfold heuristicOffers at hmem
    rcases List.mem_filterMap.mp hmem with ⟨s, hsf, hmapped⟩
    rcases Option.map_eq_some'.mp hmapped with ⟨c, hc, hco⟩
    rw [Prod.mk.injEq] at hco
    obtain ⟨hcid, _⟩ := hco
    have hs1 : s ∈ suppliers := (List.mem_filter.mp hsf).1
    have hs2 : p.id ∈ s.products_offered := of_decide_eq_true (List.mem_filter.mp hsf).2
    refine ⟨hoq.symm, s, hs1, hcid.trans hso, hs2, ?_⟩
    rw [← (hcid.trans hso), hc]
    rfl

theorem procKeysOk_step (data : InputData) (t : Int) (st st' : HState) (p : Product)
    (hp : p ∈ data.products) (h : heuristicInner data t st p = Except.ok st')
    (hinv : ProcKeysOk data st) : ProcKeysOk data st' := by
  rcases heuristicInner_ok_exists data t st p st' h with ⟨pend0, inv0, irec, _, _, _, hcore⟩
  subst hcore
  rw [heuristicCore_eq]
  intro kv hkv
  rcases placeOrder_cases data t st p (afterArrival pend0 inv0 t).2
      (projectInventory data p.id t (afterArrival pend0 inv0 t).1
        (afterArrival pend0 inv0 t).2) irec with hleft | ⟨sid, oq, _, horder, hproc, _⟩
  · rw [hleft] at hkv
    exact hinv kv hkv
  · rw [hproc] at hkv
    rcases mem_dinsert _ _ _ _ hkv with he | hold
    · obtain ⟨hmoq, sup, hsup, hsid, hoffer, hcost⟩ := orderMoqFromCheapest_spec p
        data.suppliers sid oq horder
      subst he
      exact ⟨sup, hsup, hsid, hoffer, p, hp, rfl, hsid ▸ hcost⟩
    · exact hinv kv hold

/-- Reading a positive value out of the densified plan means the sparse dict
holds exactly that value at that key. -/
theorem completePlan_pos_entry (plan : List ((String × String × Int) × ℚ))
    (product_ids supplier_ids : List String) (periods : List Int)
    (kv : (String × String × Int) × ℚ)
    (h : kv ∈ completeProcurementPlan plan product_ids supplier_ids periods)
    (hpos : 0 < kv.2) : kv ∈ plan := by
  unfold completeProcurementPlan at h
  rcases List.mem_map.mp h with ⟨k, _, he⟩
  rcases hd : dget plan k with _ | v
  · exfalso
    rw [← he, hd] at hpos
    simp at hpos
  · rw [← he]
    have hgd : (dget plan k).getD 0 = v := by
      rw [hd]
      rfl
    rw [hgd]
    exact dget_eq_some_mem plan k v hd

/-- C3 (amended): in the heuristic planner every strictly positive entry of
the returned procurement plan uses a supplier that offers the product and a
product priced for that supplier (pairs with no unit-cost mapping are
skipped as cost `inf` and never selected).  In the exact and discount-aware
planners, by contrast, an unmapped pair is priced at `1e6` — not `+∞` — and
can be selected in an optimal plan: see the counterexample. -/
theorem claim_C3_heuristic_offers (data : InputData) (sol : HSolution)
    (hok : heuristicSolve data = Except.ok sol) :
    ∀ kv ∈ sol.procurement_plan, 0 < kv.2 →
      ∃ sup ∈ data.suppliers, sup.id = kv.1.2.1 ∧ kv.1.1 ∈ sup.products_offered ∧
        ∃ prod ∈ data.products, prod.id = kv.1.1 ∧
          (dget prod.unit_cost_by_supplier sup.id).isSome = true := by
  rcases heuristicSolve_ok_inv data sol hok with ⟨st, hfold, _, hplan, _, _⟩
  have hfinal : ProcKeysOk data st := by
    refine foldPeriods_induct data (ProcKeysOk data) (sortedPeriods data.demand)
      (heuristicInitState data) st ?_ hfold ?_
    · intro t _ q hq s s' hP hstep
      exact procKeysOk_step data t s s' q hq hstep hP
    · intro kv hkv
      cases hkv
  intro kv hkv hpos
  rw [hplan] at hkv
  exact hfinal kv (completePlan_pos_entry _ _ _ _ kv hkv hpos)

theorem c3WitSol_ok : heuristicSolve c3WitData = Except.ok c3WitSol := by
  norm_num [heuristicSolve, foldPeriods, foldProducts, heuristicInner, heuristicCore,
    heuristicInitState, afterArrival, placeOrder, projectInventory, orderMoqFromCheapest,
    heuristicOffers, pickCheapest, idxOfPeriod, sortedPeriods, insertPeriod, mkDict, dget,
    dinsert, dremove, dinsertAdd, invMap, demandMap, demandQ, ltMap, ltOf,
    completeProcurementPlan, orderedTriples, msort, insSorted, productIds, supplierIds,
    c3WitData, c3WitProd, c3WitSup, c3WitInv, c3WitDem0, c3WitDem1, c3WitSol,
    List.filterMap_nil, List.filterMap_cons]

/-- C3 witness (for the amended heuristic statement): on a concrete input
where the heuristic does place an order, every positive entry uses the
offering, priced supplier. -/
theorem claim_C3_heuristic_offers_witness :
    heuristicSolve c3WitData = Except.ok c3WitSol ∧
    ∀ kv ∈ c3WitSol.procurement_plan, 0 < kv.2 →
      ∃ sup ∈ c3WitData.suppliers, sup.id = kv.1.2.1 ∧ kv.1.1 ∈ sup.products_offered ∧
        ∃ prod ∈ c3WitData.products, prod.id = kv.1.1 ∧
          (dget prod.unit_cost_by_supplier sup.id).isSome = true :=
  ⟨c3WitSol_ok, claim_C3_heuristic_offers c3WitData c3WitSol c3WitSol_ok⟩

theorem cexC3_satisfied : LinearSatisfied cexC3Data cexC3Assign := by
  norm_num [LinearSatisfied, VarDomains, LinConstraints, BalanceAt, sumProc, cexC3Data,
    cexC3Assign, cexC3Prod, cexC3Sup, cexC3Dem, cexC3Inv, productIds, supplierIds,
    sortedPeriods, insertPeriod, invRec, productRec, invMap, productMap, demandQ,
    demandMap, mkDict, dinsert, dget, List.range_succ, List.range_zero]

theorem cexC3_obj (b : Assignment) :
    linObjective cexC3Data b = b.procure "A" "S" 0 * 1000000 + b.inv "A" 0 := by
  simp [linObjective, productIds, supplierIds, sortedPeriods, insertPeriod, productRec,
    productMap, logisticsMap, invRec, invMap, mkDict, dinsert, dget, cexC3Data, cexC3Prod,
    cexC3Sup, cexC3Dem, cexC3Inv]

theorem cexC3_optimal : LinearOptimal cexC3Data cexC3Assign := by
  refine ⟨cexC3_satisfied, ?_⟩
  intro a' h'
  have hpid : "A" ∈ productIds cexC3Data := by
    simp [productIds, cexC3Data, cexC3Prod]
  have hk0 : (0 : ℕ) ∈ List.range (sortedPeriods cexC3Data.demand).length := by
    simp [sortedPeriods, insertPeriod, cexC3Data, cexC3Dem]
  have ht0 : (0 : Int) ∈ sortedPeriods cexC3Data.demand := by
    simp [sortedPeriods, insertPeriod, cexC3Data, cexC3Dem]
  have hbal : BalanceAt cexC3Data a' "A" 0 := ((h'.2 "A" hpid).1 0 hk0).1
  unfold BalanceAt at hbal
  simp only [eq_self_iff_true, if_true] at hbal
  have hps : sortedPeriods cexC3Data.demand = [0] := rfl
  rw [hps] at hbal
  have hsum : sumProc cexC3Data a' "A" (([0] : List Int).getD 0 0) =
      a'.procure "A" "S" 0 := by
    simp [sumProc, supplierIds, cexC3Data, cexC3Sup]
  rw [hsum] at hbal
  have hinit : (invRec cexC3Data "A").initial_stock = 0 := rfl
  have hdem : demandQ cexC3Data "A" (([0] : List Int).getD 0 0) = 10 := rfl
  rw [hinit, hdem] at hbal
  have hinv0 : (0 : ℚ) ≤ a'.inv "A" 0 := (h'.1.2 "A" hpid 0 ht0).1
  have hgd : (([0] : List Int).getD 0 0) = (0 : Int) := rfl
  rw [hgd] at hbal
  rw [cexC3_obj, cexC3_obj]
  have ha0p : cexC3Assign.procure "A" "S" 0 = 10 := rfl
  have ha0i : cexC3Assign.inv "A" 0 = 0 := rfl
  rw [ha0p, ha0i]
  linarith

/-- C3 counterexample: on a referentially valid input, an optimal plan of
the exact planner procures from a supplier that does not offer the product
and has no unit-cost mapping for it — the `1e6` default price is not `+∞`,
and feasibility forces the purchase. -/
theorem claim_C3_counterexample :
    ValidData cexC3Data ∧
    LinearOptimal cexC3Data cexC3Assign ∧
    ((("A", "S", 0), (10 : ℚ)) ∈ linearProcPlan cexC3Data cexC3Assign) ∧
    ¬ SupplierOffers cexC3Data "S" "A" ∧
    dget (productRec cexC3Data "A").unit_cost_by_supplier "S" = none := by
  refine ⟨?_, cexC3_optimal, ?_, ?_, rfl⟩
  · norm_num [ValidData, cexC3Data, cexC3Dem, cexC3Inv, productIds, supplierIds,
      cexC3Prod, cexC3Sup]
  · norm_num [linearProcPlan, mkKeyed, allTriples, productIds, supplierIds, sortedPeriods,
      insertPeriod, cexC3Data, cexC3Prod, cexC3Sup, cexC3Dem, cexC3Assign,
      List.filterMap_cons, List.filterMap_nil]
  · norm_num [SupplierOffers, cexC3Data, cexC3Sup]

theorem projectInventory_nonneg (data : InputData) (pid : String) (t : Int) (inv0 : ℚ)
    (hinv0 : 0 ≤ inv0) : 0 ≤ projectInventory data pid t inv0 [] := by
  unfold projectInventory
  by_cases hlast : (sortedPeriods data.demand).length ≤
      idxOfPeriod (sortedPeriods data.demand) t + 1
  · rw [if_pos hlast]
    exact hinv0
  · rw [if_neg hlast]
    exact le_max_left 0 _

theorem noOrderInv_step (data : InputData) (pid : String) (t : Int) (st st' : HState)
    (p : Product)
    (hsafety : ∀ r ∈ data.inventory, r.product_id = pid → r.safety_stock = 0)
    (h : heuristicInner data t st p = Except.ok st') (hP : NoOrderInv pid st) :
    NoOrderInv pid st' := by
  rcases heuristicInner_ok_exists data t st p st' h with
    ⟨pend0, inv0, irec, hpend, hinv, hirec, hcore⟩
  subst hcore
  rw [heuristicCore_eq]
  by_cases hpp : p.id = pid
  · have hpend0 : pend0 = [] := hP.2.1 pend0 (hpp ▸ hpend)
    have hinv0 : 0 ≤ inv0 := hP.1 inv0 (hpp ▸ hinv)
    have hsafe : irec.safety_stock = 0 := by
      have hmem := dget_mkDict_mem _ _ _ (hpp ▸ hirec)
      rcases List.mem_map.mp hmem with ⟨r, hr, he⟩
      rw [Prod.mk.injEq] at he
      exact he.2 ▸ hsafety r hr he.1
    have haa : afterArrival pend0 inv0 t = (inv0, []) := by
      rw [hpend0]
      simp [afterArrival, dget]
    rcases placeOrder_cases data t st p (afterArrival pend0 inv0 t).2
        (projectInventory data p.id t (afterArrival pend0 inv0 t).1
          (afterArrival pend0 inv0 t).2) irec with hleft | ⟨sid, oq, hcond, _, _, _⟩
    · refine ⟨?_, ?_, ?_⟩
      · intro v hv
        rw [show dget (dinsert p.id (max 0 ((afterArrival pend0 inv0 t).1 -
            demandQ data p.id t)) st.inv) pid = some (max 0 ((afterArrival pend0 inv0 t).1 -
            demandQ data p.id t)) from by rw [dget_dinsert, if_pos hpp.symm]] at hv
        obtain ⟨hv'⟩ := hv
        exact le_max_left 0 _
      · intro l hl
        rw [show dget (dinsert p.id (placeOrder data t st p (afterArrival pend0 inv0 t).2
            (projectInventory data p.id t (afterArrival pend0 inv0 t).1
              (afterArrival pend0 inv0 t).2) irec).2.2 st.pending) pid =
            some (placeOrder data t st p (afterArrival pend0 inv0 t).2
            (projectInventory data p.id t (afterArrival pend0 inv0 t).1
              (afterArrival pend0 inv0 t).2) irec).2.2 from by
          rw [dget_dinsert, if_pos hpp.symm]] at hl
        obtain ⟨hl'⟩ := hl
        rw [hleft, haa]
      · intro kv hkv
        rw [hleft] at hkv
        exact hP.2.2 kv hkv
    · exfalso
      rw [haa, hsafe] at hcond
      exact absurd hcond (not_lt.mpr (projectInventory_nonneg data p.id t inv0 hinv0))
  · refine ⟨?_, ?_, ?_⟩
    · intro v hv
      rw [dget_dinsert, if_neg (fun he => hpp he.symm)] at hv
      exact hP.1 v hv
    · intro l hl
      rw [dget_dinsert, if_neg (fun he => hpp he.symm)] at hl
      exact hP.2.1 l hl
    · intro kv hkv
      rcases placeOrder_cases data t st p (afterArrival pend0 inv0 t).2
          (projectInventory data p.id t (afterArrival pend0 inv0 t).1
            (afterArrival pend0 inv0 t).2) irec with hleft | ⟨sid, oq, _, _, hproc, _⟩
      · rw [hleft] at hkv
        exact hP.2.2 kv hkv
      · rw [hproc] at hkv
        rcases mem_dinsert _ _ _ _ hkv with he | hold
        · rw [he]
          exact hpp
        · exact hP.2.2 kv hold

/-- C4: if all initial stocks are non-negative and product `pid`'s safety
stock is 0, the heuristic planner places no order for `pid`: the
next-period projection is floored at 0, so it is never strictly below a
safety stock of 0 and the ordering rule never fires — every procurement
entry for `pid` in the returned (densified) plan is 0. -/
theorem claim_C4_zero_safety_no_orders (data : InputData) (pid : String) (sol : HSolution)
    (hinit : ∀ r ∈ data.inventory, 0 ≤ r.initial_stock)
    (hsafety : ∀ r ∈ data.inventory, r.product_id = pid → r.safety_stock = 0)
    (hok : heuristicSolve data = Except.ok sol) :
    ∀ kv ∈ sol.procurement_plan, kv.1.1 = pid → kv.2 = 0 := by
  rcases heuristicSolve_ok_inv data sol hok with ⟨st, hfold, _, hplan, _, _⟩
  have hfin : NoOrderInv pid st := by
    refine foldPeriods_induct data (NoOrderInv pid) (sortedPeriods data.demand)
      (heuristicInitState data) st ?_ hfold ?_
    · intro t _ q _ s s' hP hstep
      exact noOrderInv_step data pid t s s' q hsafety hstep hP
    · refine ⟨?_, ?_, ?_⟩
      · intro v hv
        have hmem := dget_mkDict_mem _ _ _ hv
        rcases List.mem_map.mp hmem with ⟨r, hr, he⟩
        rw [Prod.mk.injEq] at he
        exact he.2 ▸ hinit r hr
      · intro l hl
        have hmem := dget_mkDict_mem _ _ _ hl
        rcases List.mem_map.mp hmem with ⟨r, _, he⟩
        rw [Prod.mk.injEq] at he
        exact he.2.symm
      · intro kv hkv
        cases hkv
  intro kv hkv hkpid
  rw [hplan] at hkv
  unfold completeProcurementPlan at hkv
  rcases List.mem_map.mp hkv with ⟨k, _, he⟩
  rcases hd : dget st.procurement k with _ | v
  · rw [← he, hd]
    rfl
  · exfalso
    have hmem := dget_eq_some_mem _ _ _ hd
    have hk1 : k.1 = pid := by
      rw [← he] at hkpid
      exact hkpid
    exact hfin.2.2 (k, v) hmem (hk1)

theorem c4WitSol_ok : heuristicSolve c4WitData = Except.ok c4WitSol := by
  norm_num [heuristicSolve, foldPeriods, foldProducts, heuristicInner, heuristicCore,
    heuristicInitState, afterArrival, placeOrder, projectInventory, orderMoqFromCheapest,
    heuristicOffers, pickCheapest, idxOfPeriod, sortedPeriods, insertPeriod, mkDict, dget,
    dinsert, dremove, dinsertAdd, invMap, demandMap, demandQ, ltMap, ltOf,
    completeProcurementPlan, orderedTriples, msort, insSorted, productIds, supplierIds,
    c4WitData, c3WitProd, c3WitSup, c4WitInv, c3WitDem0, c3WitDem1, c4WitSol,
    List.filterMap_nil, List.filterMap_cons]

/-- C4 witness. -/
theorem claim_C4_zero_safety_no_orders_witness :
    (∀ r ∈ c4WitData.inventory, 0 ≤ r.initial_stock) ∧
    (∀ r ∈ c4WitData.inventory, r.product_id = "A" → r.safety_stock = 0) ∧
    heuristicSolve c4WitData = Except.ok c4WitSol ∧
    ∀ kv ∈ c4WitSol.procurement_plan, kv.1.1 = "A" → kv.2 = 0 :=
  ⟨by norm_num [c4WitData, c4WitInv], by norm_num [c4WitData, c4WitInv], c4WitSol_ok,
    claim_C4_zero_safety_no_orders c4WitData "A" c4WitSol
      (by norm_num [c4WitData, c4WitInv]) (by norm_num [c4WitData, c4WitInv]) c4WitSol_ok⟩

/-! ## C8: shipments derived from procurement by lead-time shift -/

theorem dget_of_mem_nodupKeys {κ β : Type} [DecidableEq κ] (l : List (κ × β))
    (hnd : NodupKeys l) (k : κ) (v : β) (h : (k, v) ∈ l) : dget l k = some v := by
  induction l with
  | nil => cases h
  | cons hd tl ih =>
    obtain ⟨k', v'⟩ := hd
    unfold NodupKeys at hnd
    simp only [List.map_cons, List.nodup_cons] at hnd
    rcases List.mem_cons.mp h with he | ht
    · rw [Prod.mk.injEq] at he
      obtain ⟨he1, he2⟩ := he
      simp [dget, he1, he2]
    · have hne : k ≠ k' := by
        intro he
        exact hnd.1 (he ▸ List.mem_map_of_mem (·.1) ht)
      simp only [dget, if_neg hne]
      exact ih hnd.2 ht

theorem keys_filterMap_if {α κ β : Type} (l : List α) (P : α → Prop) [DecidablePred P]
    (g : α → κ) (v : α → β) :
    ((l.filterMap fun x => if P x then some (g x, v x) else none).map (·.1)) =
      (l.filter fun x => decide (P x)).map g := by
  induction l with
  | nil => simp
  | cons hd tl ih =>
    by_cases hp : P hd
    · simp only [List.filterMap_cons, if_pos hp, List.filter_cons,
        decide_eq_true_eq, hp, if_true, List.map_cons, ih]
    · simp only [List.filterMap_cons, if_neg hp, List.filter_cons,
        decide_eq_true_eq, hp, if_false, ih]

theorem nodup_allTriples (data : InputData) (hp : (productIds data).Nodup)
    (hs : (supplierIds data).Nodup) : (allTriples data).Nodup := by
  unfold allTriples
  apply pairwise_flatMap_of (S := (· ≠ ·)) _ _ hp
  · intro i _
    apply pairwise_flatMap_of (S := (· ≠ ·)) _ _ hs
    · intro j _
      rw [List.pairwise_map]
      exact (sortedPeriods_nodup data.demand).imp
        (fun hne => by simp [Prod.mk.injEq, hne])
    · intro j1 j2 hne x hx y hy
      rcases List.mem_map.mp hx with ⟨t1, _, hx1⟩
      rcases List.mem_map.mp hy with ⟨t2, _, hy1⟩
      rw [← hx1, ← hy1]
      simp [Prod.mk.injEq, hne]
  · intro i1 i2 hne x hx y hy
    rcases List.mem_flatMap.mp hx with ⟨j1, _, hx1⟩
    rcases List.mem_map.mp hx1 with ⟨t1, _, hx2⟩
    rcases List.mem_flatMap.mp hy with ⟨j2, _, hy1⟩
    rcases List.mem_map.mp hy1 with ⟨t2, _, hy2⟩
    rw [← hx2, ← hy2]
    simp [Prod.mk.injEq, hne]

theorem shipEvents_nodupKeys (data : InputData) (q : String → String → Int → ℚ)
    (hp : (productIds data).Nodup) (hs : (supplierIds data).Nodup) :
    NodupKeys (shipEvents data q) := by
  unfold NodupKeys shipEvents
  rw [keys_filterMap_if]
  apply List.Nodup.map_on
  · intro x hx y hy hxy
    have hx' : x ∈ allTriples data := List.mem_of_mem_filter hx
    have hy' : y ∈ allTriples data := List.mem_of_mem_filter hy
    obtain ⟨x1, x2, x3⟩ := x
    obtain ⟨y1, y2, y3⟩ := y
    simp only [Prod.mk.injEq] at hxy ⊢
    obtain ⟨h1, h2, h3⟩ := hxy
    subst h1
    subst h2
    exact ⟨rfl, rfl, by omega⟩
  · exact (nodup_allTriples data hp hs).filter _

theorem shipEvents_arrival_mem (data : InputData) (q : String → String → Int → ℚ) :
    ∀ kv ∈ shipEvents data q, kv.1.2.2 ∈ sortedPeriods data.demand := by
  intro kv hkv
  unfold shipEvents at hkv
  rcases List.mem_filterMap.mp hkv with ⟨x, _, hf⟩
  by_cases hpx : 0 < q x.1 x.2.1 x.2.2 ∧
      (x.2.2 + ltOf data x.2.1 x.1) ∈ sortedPeriods data.demand
  · rw [if_pos hpx] at hf
    obtain ⟨rfl⟩ := hf
    exact hpx.2
  · rw [if_neg hpx] at hf
    cases hf

theorem shipRel_step (data : InputData) (t : Int) (st st' : HState) (p : Product)
    (h : heuristicInner data t st p = Except.ok st')
    (hrel : ShipRel data st) (hnk : NodupKeys st.shipments)
    (hfresh : ∀ s, dget st.procurement (p.id, s, t) = none) :
    ShipRel data st' ∧ NodupKeys st'.shipments ∧
      (st'.procurement = st.procurement ∨
        ∃ sid oq, st'.procurement = dinsert (p.id, sid, t) ((oq : Int) : ℚ) st.procurement) := by
  rcases heuristicInner_ok_exists data t st p st' h with
    ⟨pend0, inv0, irec, _, _, _, hcore⟩
  subst hcore
  rw [heuristicCore_eq]
  rcases placeOrder_cases data t st p (afterArrival pend0 inv0 t).2
      (projectInventory data p.id t (afterArrival pend0 inv0 t).1
        (afterArrival pend0 inv0 t).2) irec with hleft |
      ⟨sid, oq, _, _, hproc, ⟨hin, hship, _⟩ | ⟨hnotin, hship, _⟩⟩
  · have h1 : (placeOrder data t st p (afterArrival pend0 inv0 t).2
        (projectInventory data p.id t (afterArrival pend0 inv0 t).1
          (afterArrival pend0 inv0 t).2) irec).1 = st.procurement := by rw [hleft]
    have h2 : (placeOrder data t st p (afterArrival pend0 inv0 t).2
        (projectInventory data p.id t (afterArrival pend0 inv0 t).1
          (afterArrival pend0 inv0 t).2) irec).2.1 = st.shipments := by rw [hleft]
    refine ⟨?_, ?_, Or.inl h1⟩
    · intro i s a
      show dget (placeOrder data t st p (afterArrival pend0 inv0 t).2
          (projectInventory data p.id t (afterArrival pend0 inv0 t).1
            (afterArrival pend0 inv0 t).2) irec).2.1 (i, s, a) = _
      rw [h2, h1]
      exact hrel i s a
    · show NodupKeys (placeOrder data t st p (afterArrival pend0 inv0 t).2
        (projectInventory data p.id t (afterArrival pend0 inv0 t).1
          (afterArrival pend0 inv0 t).2) irec).2.1
      rw [h2]
      exact hnk
  · -- order placed, arrival inside the horizon
    refine ⟨?_, ?_, Or.inr ⟨sid, oq, hproc⟩⟩
    · intro i s a
      show dget (placeOrder data t st p (afterArrival pend0 inv0 t).2
          (projectInventory data p.id t (afterArrival pend0 inv0 t).1
            (afterArrival pend0 inv0 t).2) irec).2.1 (i, s, a) = _
      rw [hship, hproc]
      unfold dinsertAdd
      rw [dget_dinsert, dget_dinsert]
      by_cases hk : (i, s, a) = (p.id, sid, t + ltOf data sid p.id)
      · rw [if_pos hk]
        rw [Prod.mk.injEq, Prod.mk.injEq] at hk
        obtain ⟨hk1, hk2, hk3⟩ := hk
        rw [hk1, hk2, hk3]
        rw [if_pos hin]
        have hsub : t + ltOf data sid p.id - ltOf data sid p.id = t := by omega
        rw [hsub, if_pos rfl]
        have hold : dget st.shipments (p.id, sid, t + ltOf data sid p.id) = none := by
          rw [hrel p.id sid (t + ltOf data sid p.id), if_pos hin, hsub]
          exact hfresh sid
        rw [hold]
        norm_num
      · rw [if_neg hk]
        rw [hrel i s a]
        by_cases ha : a ∈ sortedPeriods data.demand
        · rw [if_pos ha, if_pos ha]
          have hne : ¬ ((i, s, a - ltOf data s i) = (p.id, sid, t)) := by
            intro he
            rw [Prod.mk.injEq, Prod.mk.injEq] at he
            obtain ⟨he1, he2, he3⟩ := he
            apply hk
            rw [Prod.mk.injEq, Prod.mk.injEq]
            refine ⟨he1, he2, ?_⟩
            rw [he1, he2] at he3
            omega
          rw [if_neg hne]
        · rw [if_neg ha, if_neg ha]
    · show NodupKeys (placeOrder data t st p (afterArrival pend0 inv0 t).2
        (projectInventory data p.id t (afterArrival pend0 inv0 t).1
          (afterArrival pend0 inv0 t).2) irec).2.1
      rw [hship]
      exact nodupKeys_dinsert _ _ _ hnk
  · -- order placed, arrival outside the horizon: shipments untouched
    refine ⟨?_, ?_, Or.inr ⟨sid, oq, hproc⟩⟩
    · intro i s a
      show dget (placeOrder data t st p (afterArrival pend0 inv0 t).2
          (projectInventory data p.id t (afterArrival pend0 inv0 t).1
            (afterArrival pend0 inv0 t).2) irec).2.1 (i, s, a) = _
      rw [hship, hproc]
      rw [hrel i s a]
      by_cases ha : a ∈ sortedPeriods data.demand
      · rw [if_pos ha, if_pos ha]
        rw [dget_dinsert]
        have hne : ¬ ((i, s, a - ltOf data s i) = (p.id, sid, t)) := by
          intro he
          rw [Prod.mk.injEq, Prod.mk.injEq] at he
          obtain ⟨he1, he2, he3⟩ := he
          rw [he1, he2] at he3
          apply hnotin
          have ha2 : a = t + ltOf data sid p.id := by omega
          rw [← ha2]
          exact ha
        rw [if_neg hne]
      · rw [if_neg ha, if_neg ha]
    · show NodupKeys (placeOrder data t st p (afterArrival pend0 inv0 t).2
        (projectInventory data p.id t (afterArrival pend0 inv0 t).1
          (afterArrival pend0 inv0 t).2) irec).2.1
      rw [hship]
      exact hnk

theorem foldProducts_shipRel (data : InputData) (t : Int) (futs : List Int)
    (htfut : t ∉ futs) :
    ∀ (ps : List Product) (st st' : HState),
      (ps.map (·.id)).Nodup →
      foldProducts data t ps st = Except.ok st' →
      ShipRel data st → NodupKeys st.shipments →
      (∀ p' ∈ ps, ∀ s, dget st.procurement (p'.id, s, t) = none) →
      (∀ i s t', t' ∈ futs → dget st.procurement (i, s, t') = none) →
      ShipRel data st' ∧ NodupKeys st'.shipments ∧
        (∀ i s t', t' ∈ futs → dget st'.procurement (i, s, t') = none) := by
  intro ps
  induction ps with
  | nil =>
    intro st st' _ h hrel hnk _ hfuts
    unfold foldProducts at h
    cases h
    exact ⟨hrel, hnk, hfuts⟩
  | cons p rest ih =>
    intro st st' hnd h hrel hnk hfresh hfuts
    unfold foldProducts at h
    rcases hso : heuristicInner data t st p with e | st1 <;> rw [hso] at h
    · cases h
    · simp only [List.map_cons, List.nodup_cons] at hnd
      obtain ⟨hrel1, hnk1, hdisj⟩ := shipRel_step data t st st1 p hso hrel hnk
        (fun s => hfresh p (List.mem_cons_self _ _) s)
      have hfresh1 : ∀ p' ∈ rest, ∀ s, dget st1.procurement (p'.id, s, t) = none := by
        intro p' hp' s
        rcases hdisj with hsame | ⟨sid, oq, hins⟩
        · rw [hsame]
          exact hfresh p' (List.mem_cons_of_mem _ hp') s
        · rw [hins, dget_dinsert]
          have hne : (p'.id, s, t) ≠ (p.id, sid, t) := by
            intro he
            rw [Prod.mk.injEq] at he
            exact hnd.1 (he.1 ▸ List.mem_map_of_mem (·.id) hp')
          rw [if_neg hne]
          exact hfresh p' (List.mem_cons_of_mem _ hp') s
      have hfuts1 : ∀ i s t', t' ∈ futs → dget st1.procurement (i, s, t') = none := by
        intro i s t' ht'
        rcases hdisj with hsame | ⟨sid, oq, hins⟩
        · rw [hsame]
          exact hfuts i s t' ht'
        · rw [hins, dget_dinsert]
          have hne : (i, s, t') ≠ (p.id, sid, t) := by
            intro he
            rw [Prod.mk.injEq, Prod.mk.injEq] at he
            exact htfut (he.2.2 ▸ ht')
          rw [if_neg hne]
          exact hfuts i s t' ht'
      exact ih st1 st' hnd.2 h hrel1 hnk1 hfresh1 hfuts1

theorem foldPeriods_shipRel (data : InputData)
    (hnd : (data.products.map (·.id)).Nodup) :
    ∀ (ts : List Int) (st st' : HState), ts.Nodup →
      foldPeriods data ts st = Except.ok st' →
      ShipRel data st → NodupKeys st.shipments →
      (∀ i s t', t' ∈ ts → dget st.procurement (i, s, t') = none) →
      ShipRel data st' ∧ NodupKeys st'.shipments := by
  intro ts
  induction ts with
  | nil =>
    intro st st' _ h hrel hnk _
    unfold foldPeriods at h
    cases h
    exact ⟨hrel, hnk⟩
  | cons t rest ih =>
    intro st st' hndt h hrel hnk hts
    unfold foldPeriods at h
    rcases hso : foldProducts data t data.products st with e | st1 <;> rw [hso] at h
    · cases h
    · rw [List.nodup_cons] at hndt
      obtain ⟨hrel1, hnk1, hrest1⟩ := foldProducts_shipRel data t rest hndt.1
        data.products st st1 hnd hso hrel hnk
        (fun p' _ s => hts p'.id s t (List.mem_cons_self _ _))
        (fun i s t' ht' => hts i s t' (List.mem_cons_of_mem _ ht'))
      exact ih st1 st' hndt.2 h hrel1 hnk1 hrest1

/-- C8: in both the discount-aware planner's extraction and the heuristic
planner, every strictly positive procurement entry at `(i, s, t)` is
recorded in the shipments plan with the same quantity at arrival period
`t + lead_time(s, i)` when that period is inside the observed horizon, and a
shipment whose arrival period falls outside the horizon is recorded nowhere
(in particular the shipments plan holds no key with an out-of-horizon
arrival period). -/
theorem claim_C8_shipments (data : InputData) (q : String → String → Int → ℚ)
    (sol : HSolution) (hp : (productIds data).Nodup) (hs : (supplierIds data).Nodup)
    (hok : heuristicSolve data = Except.ok sol) :
    ((∀ i s : String, ∀ t : Int,
        i ∈ productIds data → s ∈ supplierIds data → t ∈ sortedPeriods data.demand →
        0 < q i s t →
        (t + ltOf data s i ∈ sortedPeriods data.demand →
          dget (extractShipments data q) (i, s, t + ltOf data s i) = some (q i s t)) ∧
        (t + ltOf data s i ∉ sortedPeriods data.demand →
          dget (extractShipments data q) (i, s, t + ltOf data s i) = none)) ∧
      (∀ i s : String, ∀ a : Int, a ∉ sortedPeriods data.demand →
        dget (extractShipments data q) (i, s, a) = none)) ∧
    ((∀ i s : String, ∀ t : Int, ∀ v : ℚ,
        dget sol.procurement_plan (i, s, t) = some v → 0 < v →
        (t + ltOf data s i ∈ sortedPeriods data.demand →
          dget sol.shipments_plan (i, s, t + ltOf data s i) = some v) ∧
        (t + ltOf data s i ∉ sortedPeriods data.demand →
          dget sol.shipments_plan (i, s, t + ltOf data s i) = none)) ∧
      (∀ i s : String, ∀ a : Int, a ∉ sortedPeriods data.demand →
        dget sol.shipments_plan (i, s, a) = none)) := by
  have hek := shipEvents_nodupKeys data q hp hs
  have hacc : ∀ k, dget (extractShipments data q) k = dget (shipEvents data q) k := by
    intro k
    exact dget_accumFold_nodupKeys (shipEvents data q) hek k
  have hnone_out : ∀ i s : String, ∀ a : Int, a ∉ sortedPeriods data.demand →
      dget (extractShipments data q) (i, s, a) = none := by
    intro i s a ha
    rw [hacc]
    rw [dget_eq_none_iff]
    intro kv hkv he
    have harr := shipEvents_arrival_mem data q kv hkv
    rw [he] at harr
    exact ha harr
  constructor
  · constructor
    · intro i s t hi hsm ht hq
      constructor
      · intro harr
        rw [hacc]
        apply dget_of_mem_nodupKeys _ hek
        unfold shipEvents
        apply List.mem_filterMap.mpr
        refine ⟨(i, s, t), (mem_allTriples data (i, s, t)).mpr ⟨hi, hsm, ht⟩, ?_⟩
        rw [if_pos ⟨hq, harr⟩]
      · intro harr
        exact hnone_out i s _ harr
    · exact hnone_out
  · rcases heuristicSolve_ok_inv data sol hok with ⟨st, hfold, _, hplan, hship, _⟩
    have hinit : ShipRel data (heuristicInitState data) := by
      intro i s a
      simp [heuristicInitState, dget]
    obtain ⟨hrelF, hnkF⟩ := foldPeriods_shipRel data hp (sortedPeriods data.demand)
      (heuristicInitState data) st (sortedPeriods_nodup data.demand) hfold hinit
      (by simp [NodupKeys, heuristicInitState])
      (by intro i s t' _; simp [heuristicInitState, dget])
    have hshipF : ∀ i s : String, ∀ a : Int,
        dget sol.shipments_plan (i, s, a) =
          match dget st.shipments (i, s, a) with
          | some v => if 0 < v then some v else none
          | none => none := by
      intro i s a
      rw [hship]
      exact dget_filter_pos st.shipments hnkF (i, s, a)
    constructor
    · intro i s t v hv hvpos
      have hsp : dget st.procurement (i, s, t) = some v := by
        rw [hplan] at hv
        unfold completeProcurementPlan at hv
        rw [dget_map_keyed] at hv
        by_cases hmem : (i, s, t) ∈ orderedTriples (productIds data) (supplierIds data)
            (sortedPeriods data.demand)
        · rw [if_pos hmem] at hv
          rw [Option.some.injEq] at hv
          rcases hd : dget st.procurement (i, s, t) with _ | w
          · exfalso
            rw [hd] at hv
            simp at hv
            rw [← hv] at hvpos
            exact absurd hvpos (by norm_num)
          · rw [hd] at hv
            simp at hv
            rw [hv]
        · rw [if_neg hmem] at hv
          cases hv
      constructor
      · intro harr
        rw [hshipF]
        rw [hrelF i s (t + ltOf data s i), if_pos harr]
        have hsub : t + ltOf data s i - ltOf data s i = t := by omega
        rw [hsub, hsp]
        simp [hvpos]
      · intro harr
        rw [hshipF]
        rw [hrelF i s (t + ltOf data s i), if_neg harr]
    · intro i s a ha
      rw [hshipF]
      rw [hrelF i s a, if_neg ha]

/-- C8 witness: the concrete input `c3WitData` (one order with arrival
inside the horizon) and a strictly positive engine assignment. -/
theorem claim_C8_shipments_witness :
    (productIds c3WitData).Nodup ∧ (supplierIds c3WitData).Nodup ∧
    heuristicSolve c3WitData = Except.ok c3WitSol ∧
    (((∀ i s : String, ∀ t : Int,
        i ∈ productIds c3WitData → s ∈ supplierIds c3WitData →
        t ∈ sortedPeriods c3WitData.demand →
        0 < (fun _ _ _ => (7 : ℚ)) i s t →
        (t + ltOf c3WitData s i ∈ sortedPeriods c3WitData.demand →
          dget (extractShipments c3WitData (fun _ _ _ => (7 : ℚ)))
            (i, s, t + ltOf c3WitData s i) = some ((fun _ _ _ => (7 : ℚ)) i s t)) ∧
        (t + ltOf c3WitData s i ∉ sortedPeriods c3WitData.demand →
          dget (extractShipments c3WitData (fun _ _ _ => (7 : ℚ)))
            (i, s, t + ltOf c3WitData s i) = none)) ∧
      (∀ i s : String, ∀ a : Int, a ∉ sortedPeriods c3WitData.demand →
        dget (extractShipments c3WitData (fun _ _ _ => (7 : ℚ))) (i, s, a) = none)) ∧
    ((∀ i s : String, ∀ t : Int, ∀ v : ℚ,
        dget c3WitSol.procurement_plan (i, s, t) = some v → 0 < v →
        (t + ltOf c3WitData s i ∈ sortedPeriods c3WitData.demand →
          dget c3WitSol.shipments_plan (i, s, t + ltOf c3WitData s i) = some v) ∧
        (t + ltOf c3WitData s i ∉ sortedPeriods c3WitData.demand →
          dget c3WitSol.shipments_plan (i, s, t + ltOf c3WitData s i) = none)) ∧
      (∀ i s : String, ∀ a : Int, a ∉ sortedPeriods c3WitData.demand →
        dget c3WitSol.shipments_plan (i, s, a) = none))) :=
  ⟨by norm_num [productIds, c3WitData, c3WitProd],
    by norm_num [supplierIds, c3WitData, c3WitSup], c3WitSol_ok,
    claim_C8_shipments c3WitData (fun _ _ _ => (7 : ℚ)) c3WitSol
      (by norm_num [productIds, c3WitData, c3WitProd])
      (by norm_num [supplierIds, c3WitData, c3WitSup]) c3WitSol_ok⟩

/-- C5 witness. -/
theorem claim_C5_moq_witness :
    LinearSatisfied linDataW linAssignW ∧
    ∀ kv ∈ linearProcPlan linDataW linAssignW,
      ((productRec linDataW kv.1.1).MOQ : ℚ) ≤ kv.2 :=
  ⟨linAssignW_satisfied, claim_C5_moq linDataW linAssignW linAssignW_satisfied⟩

end Procurer

